import Mathlib

/-!
Verification development for the wheelbot repository (a cash-secured-put /
covered-call "Wheel" options engine).

Shallow-embedding conventions used throughout this file:

* Python floats are modelled as exact numbers: market data (quotes, strikes,
  share counts) as rationals, and the Black-Scholes pricing computations as
  real numbers (Python's math.log / math.sqrt / math.exp / math.erf are
  modelled by Real.log / Real.sqrt / Real.exp and the error function defined
  below as an integral).
* Expiration date strings of the form YYYYMMDD are modelled by their
  days-to-expiry (dte) as an integer.  The lexicographic order on such date
  strings coincides with chronological order, hence with the order of dte
  values, so sorting expirations is modelled by sorting dte values.
* Python round(x, 2) is modelled by multiplying by 100, rounding to the
  nearest integer, and dividing by 100.  Python's half-to-even tie rule on
  binary floats differs from Mathlib's round only at exact half-cent ties;
  no statement in this file depends on a tie case.
* The ib_insync broker session is modelled as an environment record whose
  fields return the data that each broker request would deliver.  The
  bounded polling loops of the source read a static ticker, so a loop that
  polls the same ticker repeatedly is equivalent to a single read.
* Python strings are modelled as List Char, so that upper-casing and
  symbol-prefix tests are executable structural functions.
-/

namespace Wheelbot

/-- Python str type, modelled as a list of characters. -/
abbrev PyStr := List Char

/-- Python s.upper(). -/
def pyUpper (s : PyStr) : PyStr := s.map Char.toUpper

/-- Rounding to two decimal places on rationals: Python round(x, 2) for
exact inputs (ties excepted, see the file header). -/
def round2Q (x : ℚ) : ℚ := (round (x * 100) : ℤ) / 100

/-- Rounding to two decimal places on reals. -/
noncomputable def round2R (x : ℝ) : ℝ := (round (x * 100) : ℤ) / 100

/-- Rounding to three decimal places on reals: Python round(x, 3). -/
noncomputable def round3R (x : ℝ) : ℝ := (round (x * 1000) : ℤ) / 1000

/-- The error function, the model of Python's math.erf. -/
noncomputable def erf (x : ℝ) : ℝ :=
  (2 / Real.sqrt Real.pi) * ∫ t in (0:ℝ)..x, Real.exp (-(t ^ 2))

/-- The standard normal CDF as written in the source:
N = lambda x: 0.5*(1.0 + math.erf(x/math.sqrt(2.0))). -/
noncomputable def normCdf (x : ℝ) : ℝ := 0.5 * (1 + erf (x / Real.sqrt 2))

/-! Black-Scholes put model.  The same two functions appear verbatim in
broker_ib.py (bs_put_delta / bs_put_price using the helper _phi) and in
wheel_wheel.py; each file's copy is embedded in its own namespace. -/

namespace BI

/-- broker_ib.py bs_put_delta.  The source guard
"if T <= 0 or vol <= 0 or S <= 0 or K <= 0: return 0.0" is the if-branch;
Python never raises on the guard branch, and the Lean function is total. -/
noncomputable def bs_put_delta (S K T r vol : ℝ) : ℝ :=
  if T ≤ 0 ∨ vol ≤ 0 ∨ S ≤ 0 ∨ K ≤ 0 then 0
  else
    |normCdf ((Real.log (S / K) + (r + 0.5 * vol * vol) * T) / (vol * Real.sqrt T)) - 1|

/-- broker_ib.py bs_put_price.  The degenerate guard returns the intrinsic
value max(0, K - S); otherwise the closed form with d1, d2. -/
noncomputable def bs_put_price (S K T r vol : ℝ) : ℝ :=
  if T ≤ 0 ∨ vol ≤ 0 ∨ S ≤ 0 ∨ K ≤ 0 then max 0 (K - S)
  else
    let d1 := (Real.log (S / K) + (r + 0.5 * vol * vol) * T) / (vol * Real.sqrt T)
    let d2 := d1 - vol * Real.sqrt T
    K * Real.exp (-r * T) * (1 - normCdf d2) - S * (1 - normCdf d1)

end BI

namespace WW

/-- wheel_wheel.py bs_put_delta (textually the same computation as the
broker_ib.py copy). -/
noncomputable def bs_put_delta (S K T r vol : ℝ) : ℝ :=
  if T ≤ 0 ∨ vol ≤ 0 ∨ S ≤ 0 ∨ K ≤ 0 then 0
  else
    |normCdf ((Real.log (S / K) + (r + 0.5 * vol * vol) * T) / (vol * Real.sqrt T)) - 1|

/-- wheel_wheel.py bs_put_price. -/
noncomputable def bs_put_price (S K T r vol : ℝ) : ℝ :=
  if T ≤ 0 ∨ vol ≤ 0 ∨ S ≤ 0 ∨ K ≤ 0 then max 0 (K - S)
  else
    let d1 := (Real.log (S / K) + (r + 0.5 * vol * vol) * T) / (vol * Real.sqrt T)
    let d2 := d1 - vol * Real.sqrt T
    K * Real.exp (-r * T) * (1 - normCdf d2) - S * (1 - normCdf d1)

end WW

/-- The two copies of the delta function agree definitionally. -/
lemma ww_bs_put_delta_eq_bi : WW.bs_put_delta = BI.bs_put_delta := rfl

/-- The two copies of the price function agree definitionally. -/
lemma ww_bs_put_price_eq_bi : WW.bs_put_price = BI.bs_put_price := rfl

/-! Analytic facts about the error function needed for the delta
monotonicity claim. -/

lemma continuous_exp_neg_sq : Continuous fun t : ℝ => Real.exp (-(t ^ 2)) :=
  Real.continuous_exp.comp (continuous_pow 2).neg

lemma intervalIntegrable_exp_neg_sq (a b : ℝ) :
    IntervalIntegrable (fun t : ℝ => Real.exp (-(t ^ 2))) MeasureTheory.volume a b :=
  continuous_exp_neg_sq.intervalIntegrable a b

lemma integral_exp_neg_sq_mono {x y : ℝ} (hxy : x ≤ y) :
    (∫ t in (0:ℝ)..x, Real.exp (-(t ^ 2))) ≤ ∫ t in (0:ℝ)..y, Real.exp (-(t ^ 2)) := by
  have hadd := intervalIntegral.integral_add_adjacent_intervals
    (intervalIntegrable_exp_neg_sq 0 x) (intervalIntegrable_exp_neg_sq x y)
  have hnn : 0 ≤ ∫ t in x..y, Real.exp (-(t ^ 2)) :=
    intervalIntegral.integral_nonneg hxy (fun u _ => (Real.exp_pos _).le)
  linarith

lemma sqrt_pi_pos : 0 < Real.sqrt Real.pi := Real.sqrt_pos.mpr Real.pi_pos

lemma erf_monotone : Monotone erf := by
  intro x y hxy
  unfold erf
  have h0 : (0:ℝ) ≤ 2 / Real.sqrt Real.pi := by positivity
  exact mul_le_mul_of_nonneg_left (integral_exp_neg_sq_mono hxy) h0

lemma integrableOn_exp_neg_sq_Ioi :
    MeasureTheory.IntegrableOn (fun t : ℝ => Real.exp (-(t ^ 2))) (Set.Ioi 0) := by
  have h := (integrable_exp_neg_mul_sq (b := 1) one_pos).integrableOn
    (s := Set.Ioi (0:ℝ))
  simpa using h

lemma integral_exp_neg_sq_le {x : ℝ} (hx : 0 ≤ x) :
    (∫ t in (0:ℝ)..x, Real.exp (-(t ^ 2))) ≤ Real.sqrt Real.pi / 2 := by
  rw [intervalIntegral.integral_of_le hx]
  have hgauss : (∫ t in Set.Ioi (0:ℝ), Real.exp (-(t ^ 2))) = Real.sqrt Real.pi / 2 := by
    have h := integral_gaussian_Ioi 1
    simpa using h
  calc (∫ t in Set.Ioc (0:ℝ) x, Real.exp (-(t ^ 2)))
      ≤ ∫ t in Set.Ioi (0:ℝ), Real.exp (-(t ^ 2)) := by
        apply MeasureTheory.setIntegral_mono_set integrableOn_exp_neg_sq_Ioi
        · filter_upwards with t using (Real.exp_pos _).le
        · exact Filter.Eventually.of_forall (fun t ht => Set.Ioc_subset_Ioi_self ht)
    _ = Real.sqrt Real.pi / 2 := hgauss

lemma erf_le_one (x : ℝ) : erf x ≤ 1 := by
  rcases le_or_lt x 0 with hx | hx
  · have hint : (∫ t in (0:ℝ)..x, Real.exp (-(t ^ 2))) ≤ 0 := by
      have := integral_exp_neg_sq_mono hx
      simpa using this
    have h0 : (0:ℝ) ≤ 2 / Real.sqrt Real.pi := by positivity
    have : erf x ≤ 0 := mul_nonpos_of_nonneg_of_nonpos h0 hint
    linarith
  · have hint := integral_exp_neg_sq_le hx.le
    have hne : Real.sqrt Real.pi ≠ 0 := ne_of_gt sqrt_pi_pos
    have h0 : (0:ℝ) ≤ 2 / Real.sqrt Real.pi := by positivity
    have h1 : erf x ≤ (2 / Real.sqrt Real.pi) * (Real.sqrt Real.pi / 2) :=
      mul_le_mul_of_nonneg_left hint h0
    have h2 : (2 / Real.sqrt Real.pi) * (Real.sqrt Real.pi / 2) = 1 := by
      field_simp
    linarith

lemma normCdf_monotone : Monotone normCdf := by
  intro x y hxy
  unfold normCdf
  have h : erf (x / Real.sqrt 2) ≤ erf (y / Real.sqrt 2) := by
    apply erf_monotone
    have h2 : (0:ℝ) < Real.sqrt 2 := Real.sqrt_pos.mpr (by norm_num)
    exact (div_le_div_right h2).mpr hxy
  nlinarith

lemma normCdf_le_one (x : ℝ) : normCdf x ≤ 1 := by
  unfold normCdf
  have := erf_le_one (x / Real.sqrt 2)
  nlinarith

/-- On strictly positive inputs, the put delta is 1 minus the normal CDF of
d1. -/
lemma bi_bs_put_delta_of_pos {S K T r vol : ℝ} (hS : 0 < S) (hK : 0 < K)
    (hT : 0 < T) (hv : 0 < vol) :
    BI.bs_put_delta S K T r vol =
      1 - normCdf ((Real.log (S / K) + (r + 0.5 * vol * vol) * T) / (vol * Real.sqrt T)) := by
  have hg : ¬(T ≤ 0 ∨ vol ≤ 0 ∨ S ≤ 0 ∨ K ≤ 0) := by
    push_neg
    exact ⟨hT, hv, hS, hK⟩
  have hle := normCdf_le_one
    ((Real.log (S / K) + (r + 0.5 * vol * vol) * T) / (vol * Real.sqrt T))
  rw [BI.bs_put_delta, if_neg hg, abs_of_nonpos (by linarith)]
  ring

/-- C5: for all S, K, T, r, vol with T ≤ 0 or vol ≤ 0 (and likewise when
S ≤ 0 or K ≤ 0), putPrice returns exactly max(0, K − S) and putDelta
returns exactly 0, in both source files; the embedded functions are total,
matching the source's guarded non-raising behaviour on degenerate inputs. -/
theorem claim_C5 (S K T r vol : ℝ) :
    ((T ≤ 0 ∨ vol ≤ 0) →
      BI.bs_put_price S K T r vol = max 0 (K - S) ∧
      BI.bs_put_delta S K T r vol = 0 ∧
      WW.bs_put_price S K T r vol = max 0 (K - S) ∧
      WW.bs_put_delta S K T r vol = 0) ∧
    ((S ≤ 0 ∨ K ≤ 0) →
      BI.bs_put_price S K T r vol = max 0 (K - S) ∧
      BI.bs_put_delta S K T r vol = 0 ∧
      WW.bs_put_price S K T r vol = max 0 (K - S) ∧
      WW.bs_put_delta S K T r vol = 0) := by
  constructor
  · intro h
    have hg : T ≤ 0 ∨ vol ≤ 0 ∨ S ≤ 0 ∨ K ≤ 0 := by tauto
    refine ⟨?_, ?_, ?_, ?_⟩ <;>
      simp only [BI.bs_put_price, BI.bs_put_delta, WW.bs_put_price, WW.bs_put_delta, if_pos hg]
  · intro h
    have hg : T ≤ 0 ∨ vol ≤ 0 ∨ S ≤ 0 ∨ K ≤ 0 := by tauto
    refine ⟨?_, ?_, ?_, ?_⟩ <;>
      simp only [BI.bs_put_price, BI.bs_put_delta, WW.bs_put_price, WW.bs_put_delta, if_pos hg]

/-- Witness for C5 at the concrete degenerate input S=100, K=110, T=0,
r=0.03, vol=0.2: both hypotheses variants are exercised on the first
disjunct shape, and the returned intrinsic value is max 0 10 = 10. -/
theorem claim_C5_witness :
    ((0:ℝ) ≤ 0 ∨ (0.2:ℝ) ≤ 0) ∧
    (BI.bs_put_price 100 110 0 0.03 0.2 = max 0 ((110:ℝ) - 100) ∧
     BI.bs_put_delta 100 110 0 0.03 0.2 = 0 ∧
     WW.bs_put_price 100 110 0 0.03 0.2 = max 0 ((110:ℝ) - 100) ∧
     WW.bs_put_delta 100 110 0 0.03 0.2 = 0) :=
  ⟨Or.inl le_rfl, (claim_C5 100 110 0 0.03 0.2).1 (Or.inl le_rfl)⟩

/-- C9: for fixed S, T, r, vol all strictly positive, the put delta of both
source files is monotonically non-decreasing in the strike. -/
theorem claim_C9 (S T r vol K1 K2 : ℝ) (hS : 0 < S) (hT : 0 < T) (hr : 0 < r)
    (hv : 0 < vol) (hK1 : 0 < K1) (hK : K1 ≤ K2) :
    BI.bs_put_delta S K1 T r vol ≤ BI.bs_put_delta S K2 T r vol ∧
    WW.bs_put_delta S K1 T r vol ≤ WW.bs_put_delta S K2 T r vol := by
  have hK2 : 0 < K2 := lt_of_lt_of_le hK1 hK
  have key : BI.bs_put_delta S K1 T r vol ≤ BI.bs_put_delta S K2 T r vol := by
    rw [bi_bs_put_delta_of_pos hS hK1 hT hv, bi_bs_put_delta_of_pos hS hK2 hT hv]
    have hdiv : S / K2 ≤ S / K1 := div_le_div_of_nonneg_left hS.le hK1 hK
    have hlog : Real.log (S / K2) ≤ Real.log (S / K1) :=
      Real.log_le_log (div_pos hS hK2) hdiv
    have hden : (0:ℝ) < vol * Real.sqrt T := by positivity
    have hd1 : (Real.log (S / K2) + (r + 0.5 * vol * vol) * T) / (vol * Real.sqrt T) ≤
        (Real.log (S / K1) + (r + 0.5 * vol * vol) * T) / (vol * Real.sqrt T) := by
      apply (div_le_div_right hden).mpr
      linarith
    have := normCdf_monotone hd1
    linarith
  exact ⟨key, by rw [ww_bs_put_delta_eq_bi]; exact key⟩

/-- Witness for C9 at the concrete input S=100, T=1, r=0.03, vol=0.2,
K1=90, K2=95. -/
theorem claim_C9_witness :
    ((0:ℝ) < 100 ∧ (0:ℝ) < 1 ∧ (0.03:ℝ) > 0 ∧ (0:ℝ) < 0.2 ∧ (0:ℝ) < 90 ∧ (90:ℝ) ≤ 95) ∧
    BI.bs_put_delta 100 90 1 0.03 0.2 ≤ BI.bs_put_delta 100 95 1 0.03 0.2 ∧
    WW.bs_put_delta 100 90 1 0.03 0.2 ≤ WW.bs_put_delta 100 95 1 0.03 0.2 :=
  ⟨by norm_num,
   claim_C9 100 1 0.03 0.2 90 95 (by norm_num) (by norm_num) (by norm_num)
     (by norm_num) (by norm_num) (by norm_num)⟩

/-! Market-data model shared by broker_ib.py and wheel_wheel.py. -/

/-- Snapshot ticker for an option contract: fields read by reqMktData. -/
structure OQuote where
  last : ℚ
  bid : ℚ
  ask : ℚ

/-- Snapshot ticker for a stock: fields read by the spot estimators. -/
structure SQuote where
  last : ℚ
  close : ℚ
  bid : ℚ
  ask : ℚ
  marketPrice : ℚ

/-- One entry of reqSecDefOptParams: an exchange with its expirations
(modelled by dte, see the file header) and strikes. -/
structure ChainP where
  exchange : PyStr
  expirations : List ℤ
  strikes : List ℚ

/-- The string SMART. -/
def smartEx : PyStr := ['S', 'M', 'A', 'R', 'T']

/-- Python sorted(...) on a linearly ordered type. -/
def sortLE {α : Type} [LinearOrder α] (l : List α) : List α :=
  l.mergeSort fun a b => decide (a ≤ b)

lemma sortLE_sorted {α : Type} [LinearOrder α] (l : List α) :
    (sortLE l).Sorted (· ≤ ·) := by
  have h := @List.sorted_mergeSort α (fun a b : α => decide (a ≤ b))
    (fun a b c hab hbc => by
      simp only [decide_eq_true_eq] at hab hbc ⊢
      exact le_trans hab hbc)
    (fun a b => by simpa using le_total a b) l
  exact List.Pairwise.imp (fun hab => by simpa using hab) h

lemma sortLE_perm {α : Type} [LinearOrder α] (l : List α) :
    List.Perm (sortLE l) l :=
  List.mergeSort_perm l _

/-- Filtering commutes with sorting. -/
lemma filter_sortLE {α : Type} [LinearOrder α] (p : α → Bool) (l : List α) :
    (sortLE l).filter p = sortLE (l.filter p) := by
  have hperm : List.Perm ((sortLE l).filter p) (sortLE (l.filter p)) :=
    ((sortLE_perm l).filter p).trans (sortLE_perm (l.filter p)).symm
  have h1 : ((sortLE l).filter p).Sorted (· ≤ ·) :=
    List.Pairwise.sublist (List.filter_sublist _) (sortLE_sorted l)
  have h2 : (sortLE (l.filter p)).Sorted (· ≤ ·) := sortLE_sorted (l.filter p)
  exact List.eq_of_perm_of_sorted hperm h1 h2

/-! The strict less-than argmin loop used by both strike selectors:
best = None; for x in candidates: if best is None or diff < best[0]:
best = (diff, payload x); finally return best[1]. -/

/-- One step of the source's best-candidate update: the stored pair is
(diff, payload), updated on strict improvement only. -/
noncomputable def selFoldStep {α β : Type} (f : α → ℝ) (g : α → β)
    (best : Option (ℝ × β)) (x : α) : Option (ℝ × β) :=
  match best with
  | none => some (f x, g x)
  | some (d, s) => if f x < d then some (f x, g x) else some (d, s)

/-- First minimizer of f over a list: the recursive specification the loop
implements.  On ties the earlier element wins. -/
noncomputable def argminFirst {α : Type} (f : α → ℝ) : List α → Option α
  | [] => none
  | a :: l =>
    match argminFirst f l with
    | none => some a
    | some b => if f a ≤ f b then some a else some b

lemma foldl_selFoldStep_some {α β : Type} (f : α → ℝ) (g : α → β) :
    ∀ (l : List α) (b : α),
      l.foldl (selFoldStep f g) (some (f b, g b)) =
        match argminFirst f l with
        | none => some (f b, g b)
        | some m => if f m < f b then some (f m, g m) else some (f b, g b) := by
  intro l
  induction l with
  | nil => intro b; simp [argminFirst]
  | cons a t ih =>
    intro b
    show t.foldl (selFoldStep f g) (selFoldStep f g (some (f b, g b)) a) = _
    by_cases hab : f a < f b
    · have hstep : selFoldStep f g (some (f b, g b)) a = some (f a, g a) := by
        simp [selFoldStep, hab]
      rw [hstep, ih a]
      cases h : argminFirst f t with
      | none => simp [argminFirst, h, hab]
      | some m =>
        simp only [argminFirst, h]
        by_cases ham : f a ≤ f m
        · rw [if_pos ham]
          have h1 : ¬ f m < f a := not_lt.mpr ham
          simp [h1, hab]
        · rw [if_neg ham]
          have h1 : f m < f a := not_le.mp ham
          have h2 : f m < f b := lt_trans h1 hab
          simp [h1, h2]
    · have hstep : selFoldStep f g (some (f b, g b)) a = some (f b, g b) := by
        simp [selFoldStep, hab]
      rw [hstep, ih b]
      cases h : argminFirst f t with
      | none => simp [argminFirst, h, hab]
      | some m =>
        simp only [argminFirst, h]
        by_cases ham : f a ≤ f m
        · rw [if_pos ham]
          have hba : f b ≤ f a := not_lt.mp hab
          have h1 : ¬ f m < f b := not_lt.mpr (le_trans hba ham)
          have h2 : ¬ f a < f b := hab
          simp [h1, h2]
        · rw [if_neg ham]

lemma foldl_selFoldStep_none {α β : Type} (f : α → ℝ) (g : α → β) (l : List α) :
    l.foldl (selFoldStep f g) none = (argminFirst f l).map fun m => (f m, g m) := by
  cases l with
  | nil => rfl
  | cons a t =>
    show t.foldl (selFoldStep f g) (some (f a, g a)) = _
    rw [foldl_selFoldStep_some]
    cases h : argminFirst f t with
    | none => simp [argminFirst, h]
    | some m =>
      simp only [argminFirst, h]
      by_cases ham : f a ≤ f m
      · rw [if_pos ham]
        have h1 : ¬ f m < f a := not_lt.mpr ham
        simp [h1]
      · rw [if_neg ham]
        have h1 : f m < f a := not_le.mp ham
        simp [h1]

/-- argminFirst selects the first element attaining the minimum: the list
splits as l1 ++ c :: l2 with every earlier element strictly worse and every
later element no better, so of two equidistant candidates the one
enumerated first is selected. -/
lemma argminFirst_first_min {α : Type} (f : α → ℝ) (l : List α) :
    (argminFirst f l).elim (l = [])
      (fun c => ∃ l1 l2, l = l1 ++ c :: l2 ∧
        (∀ b ∈ l1, f c < f b) ∧ ∀ b ∈ l2, f c ≤ f b) := by
  induction l with
  | nil => simp [argminFirst]
  | cons a t ih =>
    cases h : argminFirst f t with
    | none =>
      have ht : t = [] := by simpa [h] using ih
      subst ht
      simp only [argminFirst, Option.elim]
      exact ⟨[], [], rfl, by simp, by simp⟩
    | some m =>
      have hm : ∃ l1 l2, t = l1 ++ m :: l2 ∧
          (∀ b ∈ l1, f m < f b) ∧ ∀ b ∈ l2, f m ≤ f b := by
        simpa [h] using ih
      obtain ⟨l1, l2, heq, hlt, hle⟩ := hm
      simp only [argminFirst, h]
      by_cases ham : f a ≤ f m
      · rw [if_pos ham]
        refine ⟨[], t, rfl, by simp, ?_⟩
        intro b hb
        rw [heq] at hb
        rcases List.mem_append.mp hb with hb1 | hb2
        · exact le_trans ham (hlt b hb1).le
        · rcases List.mem_cons.mp hb2 with hbm | hbl2
          · rw [hbm]; exact ham
          · exact le_trans ham (hle b hbl2)
      · rw [if_neg ham]
        have hma : f m < f a := not_le.mp ham
        refine ⟨a :: l1, l2, by rw [heq, List.cons_append], ?_, hle⟩
        intro b hb
        rcases List.mem_cons.mp hb with hba | hbl1
        · rw [hba]; exact hma
        · exact hlt b hbl1

/-! Embedding of broker_ib.py. -/

/-- The ib_insync session as seen by broker_ib.py: each field returns the
data the corresponding broker request would deliver for a symbol. -/
structure IBEnvB where
  stream : PyStr → SQuote
  snap : PyStr → SQuote
  bars3 : PyStr → List ℚ
  histCloses : PyStr → ℕ → List ℚ
  chainParams : PyStr → List ChainP

/-- broker_ib.py _first_price: the first positive field among last, close,
bid, ask, marketPrice. -/
def firstPriceQ (t : SQuote) : Option ℚ :=
  [t.last, t.close, t.bid, t.ask, t.marketPrice].find? fun v => decide (0 < v)

namespace BI

/-- broker_ib.py robust_spot: streaming, then snapshot, then the most
recent daily close.  The bounded streaming poll reads a static ticker, so
it is modelled by a single read (see the file header). -/
def robust_spot (env : IBEnvB) (sym : PyStr) : Option ℚ :=
  match firstPriceQ (env.stream sym) with
  | some v => some v
  | none =>
    match firstPriceQ (env.snap sym) with
    | some v => some v
    | none => (env.bars3 sym).getLast?

end BI

/-- Mean of a list of reals. -/
noncomputable def meanR (l : List ℝ) : ℝ := l.sum / l.length

/-- The sample standard deviation value sqrt(sum (x - mean)^2 / (n - 1)):
what statistics.stdev returns when it has at least two data points.  The
full model of statistics.stdev, with its error path, is stdevPy below. -/
noncomputable def stdevR (l : List ℝ) : ℝ :=
  Real.sqrt ((l.map fun x => (x - meanR l) ^ 2).sum / ((l.length : ℝ) - 1))

/-- Python statistics.stdev, exception-aware: on fewer than two data points
the source raises StatisticsError, modelled as none; otherwise it returns
the sample standard deviation. -/
noncomputable def stdevPy (l : List ℝ) : Option ℝ :=
  if l.length < 2 then none else some (stdevR l)

/-- Log returns over consecutive closes:
rets[i] = log(closes[i] / closes[i-1]). -/
noncomputable def logReturns (closes : List ℚ) : List ℝ :=
  (closes.zip closes.tail).map fun p => Real.log ((p.2 : ℝ) / (p.1 : ℝ))

/-- Python negative-index slice l[-k:]: the whole list when k = 0 (a Python
slicing quirk), otherwise the trailing k elements. -/
def pySliceLast {α : Type} (k : ℕ) (l : List α) : List α :=
  if k = 0 then l else l.drop (l.length - k)

namespace BI

/-- broker_ib.py realized_vol_annualized: 0.20 when fewer than lookback+1
closes are available, else the sample stdev of the trailing lookback log
returns annualized by sqrt 252.  This total model is valid on the
exception-free domain; the source is only ever called at the default
lookback 21, where the exception-aware model (realized_vol_annualizedPy
below) provably returns exactly this value (lemma bi_realized_vol_21). -/
noncomputable def realized_vol_annualized (env : IBEnvB) (sym : PyStr)
    (lookback : ℕ) : ℝ :=
  let closes := env.histCloses sym (lookback + 5)
  if closes.length < lookback + 1 then 0.20
  else stdevR (pySliceLast lookback (logReturns closes)) * Real.sqrt 252

/-- broker_ib.py req_chain: prefer the SMART exchange entry, else the
first. -/
def req_chain (env : IBEnvB) (sym : PyStr) : Option ChainP :=
  match (env.chainParams sym).find? (fun p => p.exchange == smartEx) with
  | some p => some p
  | none => (env.chainParams sym).head?

end BI

/-- The dict returned by pick_put_by_model_delta.  The exp field (a date
string in the source) and the dte coincide under the dte modelling. -/
structure Sel where
  symbol : PyStr
  exp : ℤ
  dte : ℤ
  strike : ℚ
  delta : ℝ
  spot : ℚ
  iv : ℝ
  r : ℝ

namespace BI

/-- The per-expiration time to expiry T = max(1e-6, dte/365.0). -/
noncomputable def candT (dte : ℤ) : ℝ := max (1e-6) ((dte : ℝ) / 365)

/-- Model delta of one (expiration, strike) candidate. -/
noncomputable def candDelta (S : ℚ) (r iv : ℝ) (c : ℤ × ℚ) : ℝ :=
  bs_put_delta (S : ℝ) (c.2 : ℝ) (candT c.1) r iv

/-- Distance of one candidate's model delta from the target. -/
noncomputable def candDiff (S : ℚ) (r iv target : ℝ) (c : ℤ × ℚ) : ℝ :=
  |candDelta S r iv c - target|

/-- The payload dict stored for one candidate. -/
noncomputable def mkSel (sym : PyStr) (S : ℚ) (r iv : ℝ) (c : ℤ × ℚ) : Sel :=
  ⟨sym, c.1, c.1, c.2, round3R (candDelta S r iv c), S, iv, r⟩

/-- Candidate strikes: the sorted band [0.7 S, 1.3 S], or the lowest 80
strikes when the band is empty. -/
def strikeList (chain : ChainP) (S : ℚ) : List ℚ :=
  let band := sortLE (chain.strikes.filter fun k =>
    decide (7 / 10 * S ≤ k ∧ k ≤ 13 / 10 * S))
  if band = [] then (sortLE chain.strikes).take 80 else band

/-- broker_ib.py pick_put_by_model_delta: resolve spot and realized vol,
fetch the chain, filter expirations by the dte window over the sorted
expiration list, and run the strict less-than argmin loop over the first 10
qualifying expirations and all candidate strikes. -/
noncomputable def pick_put_by_model_delta (env : IBEnvB) (sym : PyStr)
    (target : ℝ) (dteRange : ℤ × ℤ) (r : ℝ) : Option Sel :=
  match robust_spot env sym with
  | none => none
  | some S =>
    if S = 0 then none
    else
      let iv := realized_vol_annualized env sym 21
      match req_chain env sym with
      | none => none
      | some chain =>
        let expList := sortLE chain.expirations
        let candsExp := expList.filter fun e =>
          decide (dteRange.1 ≤ e ∧ e ≤ dteRange.2)
        if candsExp = [] then none
        else
          let strikes := strikeList chain S
          let enum := (candsExp.take 10).flatMap fun e => strikes.map fun k => (e, k)
          (enum.foldl (selFoldStep (candDiff S r iv target) (mkSel sym S r iv)) none).map
            Prod.snd

/-- Modelled from the spec: for each of the first 10 qualifying expirations
(ascending by days-to-expiry) and each candidate strike (ascending), the
single candidate minimizing the delta distance is selected, first-seen
winning ties. -/
noncomputable def pickPutSpec (env : IBEnvB) (sym : PyStr) (target : ℝ)
    (dteRange : ℤ × ℤ) (r : ℝ) : Option Sel :=
  match robust_spot env sym with
  | none => none
  | some S =>
    if S = 0 then none
    else
      let iv := realized_vol_annualized env sym 21
      match req_chain env sym with
      | none => none
      | some chain =>
        let qual := (sortLE (chain.expirations.filter fun e =>
          decide (dteRange.1 ≤ e ∧ e ≤ dteRange.2))).take 10
        let strikes := strikeList chain S
        (argminFirst (candDiff S r iv target)
          (qual.flatMap fun e => strikes.map fun k => (e, k))).map (mkSel sym S r iv)

end BI

/-- A trivial broker environment with empty data, used to instantiate
universally quantified claim theorems. -/
def envTrivB : IBEnvB :=
  ⟨fun _ => ⟨0, 0, 0, 0, 0⟩, fun _ => ⟨0, 0, 0, 0, 0⟩, fun _ => [],
   fun _ _ => [], fun _ => []⟩

/-- C4: strike selection equals the first minimizer over the enumeration of
at most the first 10 qualifying expirations in ascending dte order with
strikes ascending within each, under the strict less-than update; the
argmin characterization shows that of two equidistant candidates the one
enumerated first is selected, and both sides are functions of the inputs,
hence deterministic. -/
theorem claim_C4 :
    (∀ (env : IBEnvB) (sym : PyStr) (target : ℝ) (dteRange : ℤ × ℤ) (r : ℝ),
      BI.pick_put_by_model_delta env sym target dteRange r =
        BI.pickPutSpec env sym target dteRange r) ∧
    (∀ (α : Type) (f : α → ℝ) (l : List α),
      (argminFirst f l).elim (l = [])
        (fun c => ∃ l1 l2, l = l1 ++ c :: l2 ∧
          (∀ b ∈ l1, f c < f b) ∧ ∀ b ∈ l2, f c ≤ f b)) := by
  constructor
  · intro env sym target dteRange r
    unfold BI.pick_put_by_model_delta BI.pickPutSpec
    cases BI.robust_spot env sym with
    | none => rfl
    | some S =>
      simp only
      by_cases hS : S = 0
      · rw [if_pos hS, if_pos hS]
      · rw [if_neg hS, if_neg hS]
        cases BI.req_chain env sym with
        | none => rfl
        | some chain =>
          simp only
          rw [filter_sortLE]
          set q0 := sortLE (chain.expirations.filter fun e =>
            decide (dteRange.1 ≤ e ∧ e ≤ dteRange.2)) with hq0
          by_cases hq : q0 = []
          · rw [if_pos hq, hq]
            simp [argminFirst]
          · rw [if_neg hq]
            rw [foldl_selFoldStep_none, Option.map_map]
            rfl
  · exact fun α f l => argminFirst_first_min f l

/-- Witness for C4: the refinement equation instantiated at a concrete
environment and inputs. -/
theorem claim_C4_witness :
    BI.pick_put_by_model_delta envTrivB smartEx 0.25 (30, 45) 0.03 =
      BI.pickPutSpec envTrivB smartEx 0.25 (30, 45) 0.03 :=
  claim_C4.1 envTrivB smartEx 0.25 (30, 45) 0.03

/-! Embedding of wheel_wheel.py: configuration constants, contract model,
position classification, management actions and the cycle controller. -/

/-- wheel_wheel.py configuration block. -/
noncomputable def TARGET_PUT_DELTA : ℝ := 0.25

/-- Target delta for covered calls. -/
noncomputable def TARGET_CALL_DELTA : ℝ := 0.20

/-- Put days-to-expiration window. -/
def PUT_DTE_RANGE : ℤ × ℤ := (28, 45)

/-- Call days-to-expiration window. -/
def CALL_DTE_RANGE : ℤ × ℤ := (28, 45)

/-- Markup over theoretical value for new sell orders. -/
noncomputable def MARKUP_OVER_THEO : ℝ := 0.10

/-- Close at 50 percent of collected premium. -/
noncomputable def TAKE_PROFIT : ℝ := 0.50

/-- Roll when days to expiry is at most this threshold. -/
def ROLL_DTE_THRESHOLD : ℤ := 5

/-- Order tag identifying this bot's orders. -/
def TAG : PyStr := ['W', 'H', 'E', 'E', 'L', 'B', 'O', 'T']

/-- The string USD. -/
def usdCur : PyStr := ['U', 'S', 'D']

/-- The string GTC. -/
def gtcTif : PyStr := ['G', 'T', 'C']

/-- The string P. -/
def pChar : PyStr := ['P']

/-- The string C. -/
def cChar : PyStr := ['C']

/-- An ib_insync contract as used by wheel_wheel.py: a Stock or an Option.
The option's lastTradeDateOrContractMonth date string is modelled by its
days-to-expiry (see the file header); exchange, currency and trading class
metadata may be empty, to be repaired by normalize_option. -/
inductive WCon where
  | stock (symbol localSymbol : PyStr)
  | option (symbol localSymbol : PyStr) (lastTradeDte : ℤ) (strike : ℚ)
      (right : PyStr) (exchange currency tradingCls : PyStr)
deriving DecidableEq

/-- Contract underlying symbol. -/
def WCon.symbol : WCon → PyStr
  | .stock s _ => s
  | .option s _ _ _ _ _ _ _ => s

/-- Contract local symbol. -/
def WCon.localSymbol : WCon → PyStr
  | .stock _ ls => ls
  | .option _ ls _ _ _ _ _ _ => ls

/-- Option right, empty for stocks. -/
def WCon.right : WCon → PyStr
  | .stock _ _ => []
  | .option _ _ _ _ r _ _ _ => r

/-- Option strike, 0 for stocks. -/
def WCon.strike : WCon → ℚ
  | .stock _ _ => 0
  | .option _ _ _ k _ _ _ _ => k

/-- A broker position record: a contract and a signed quantity. -/
structure WPos where
  contract : WCon
  position : ℤ

/-- The ib_insync session as seen by wheel_wheel.py, plus the CLI inputs of
one run: target symbol (already upper-cased by main) and order quantity.
The trades field holds the orderRef strings of the active trades. -/
structure WEnv where
  symbol : PyStr
  qty : ℤ
  positions : List WPos
  trades : List PyStr
  optQuote : WCon → OQuote
  stockSnap : PyStr → SQuote
  stockBars3 : PyStr → List ℚ
  histCloses : PyStr → ℕ → List ℚ
  chainParams : PyStr → List ChainP

/-- Order side. -/
inductive Act where
  | buy
  | sell
deriving DecidableEq

/-- A limit order as handed to placeOrder: LimitOrder(action, qty, price)
with optional tif and orderRef fields. -/
structure Intent where
  contract : WCon
  action : Act
  qty : ℤ
  price : ℝ
  tif : PyStr
  orderRef : PyStr

namespace WW

/-- wheel_wheel.py dte_from_contract: the contract's days to expiry, 999 on
the exception path (a stock has no expiry to parse). -/
def dte_from_contract (c : WCon) : ℤ :=
  match c with
  | .option _ _ d _ _ _ _ _ => d
  | .stock _ _ => 999

/-- wheel_wheel.py normalize_option: fill in missing exchange, currency and
trading class on option contracts coming from positions; qualification is a
broker side effect with no modelled state. -/
def normalize_option (c : WCon) (symbol : PyStr) : WCon :=
  match c with
  | .option s ls d k r ex cur tc =>
    .option s ls d k r (if ex = [] then smartEx else ex)
      (if cur = [] then usdCur else cur) (if tc = [] then symbol else tc)
  | .stock s ls => .stock s ls

/-- One iteration of the position-classification loop of
fetch_positions_and_orders. -/
def classifyStep (symbol : PyStr) (acc : ℤ × List (WCon × ℤ) × List (WCon × ℤ))
    (p : WPos) : ℤ × List (WCon × ℤ) × List (WCon × ℤ) :=
  match p.contract with
  | .stock _ ls =>
    if pyUpper ls = symbol then (acc.1 + p.position, acc.2.1, acc.2.2) else acc
  | .option s ls d k r ex cur tc =>
    if ls ≠ [] ∧ List.isPrefixOf symbol ls then
      let c := normalize_option (.option s ls d k r ex cur tc) symbol
      let sp := if c.right = pChar ∧ p.position < 0 then acc.2.1 ++ [(c, p.position)]
        else acc.2.1
      let sc := if c.right = cChar ∧ p.position < 0 then acc.2.2 ++ [(c, p.position)]
        else acc.2.2
      (acc.1, sp, sc)
    else acc

/-- The our-orders test: orderRef equal to, or containing, the tag (Python
ref == TAG or ref.find(TAG) >= 0). -/
def isTagged (r : PyStr) : Bool := r == TAG || decide (List.IsInfix TAG r)

/-- wheel_wheel.py fetch_positions_and_orders as a function of the symbol,
the broker's position list and the active orderRef list. -/
def fetchPos (symbol : PyStr) (positions : List WPos) (trades : List PyStr) :
    ℤ × List (WCon × ℤ) × List (WCon × ℤ) × List PyStr :=
  let tri := positions.foldl (classifyStep symbol) (0, [], [])
  (tri.1, tri.2.1, tri.2.2, trades.filter isTagged)

/-- wheel_wheel.py fetch_positions_and_orders. -/
def fetch_positions_and_orders (env : WEnv) :
    ℤ × List (WCon × ℤ) × List (WCon × ℤ) × List PyStr :=
  fetchPos env.symbol env.positions env.trades

/-- wheel_wheel.py place_limit: builds a GTC tagged limit order; in dry-run
mode it returns None and nothing reaches the broker, otherwise placeOrder
is called and the trade handle returned.  The second component lists the
orders actually submitted to the broker. -/
def place_limit (contract : WCon) (action : Act) (qty : ℤ) (limitPrice : ℝ)
    (dry : Bool) : Option Intent × List Intent :=
  let o : Intent := ⟨contract, action, qty, limitPrice, gtcTif, TAG⟩
  if dry then (none, []) else (some o, [o])

/-- wheel_wheel.py robust_spot: snapshot quote first positive field, else
the most recent daily close. -/
def robust_spot (env : WEnv) (sym : PyStr) : Option ℚ :=
  match firstPriceQ (env.stockSnap sym) with
  | some v => some v
  | none => (env.stockBars3 sym).getLast?

/-- wheel_wheel.py realized_vol_annualized (same computation as the
broker_ib.py copy).  This total model is valid on the exception-free
domain; one_cycle only calls it at the default lookback 21, where the
exception-aware model (realized_vol_annualizedPy below) provably returns
exactly this value (lemma ww_realized_vol_21). -/
noncomputable def realized_vol_annualized (env : WEnv) (sym : PyStr)
    (lookback : ℕ) : ℝ :=
  let closes := env.histCloses sym (lookback + 5)
  if closes.length < lookback + 1 then 0.20
  else stdevR (pySliceLast lookback (logReturns closes)) * Real.sqrt 252

/-- wheel_wheel.py get_chain: prefer the SMART entry, else the first. -/
def get_chain (env : WEnv) (sym : PyStr) : Option ChainP :=
  match (env.chainParams sym).find? (fun p => p.exchange == smartEx) with
  | some p => some p
  | none => (env.chainParams sym).head?

/-- The mid computation of ensure_profit_take: bid/ask midpoint when both
are positive, else the last trade price when positive, else nothing. -/
def midOf (md : OQuote) : Option ℚ :=
  if 0 < md.bid ∧ 0 < md.ask then some ((md.bid + md.ask) / 2)
  else if 0 < md.last then some md.last
  else none

/-- wheel_wheel.py ensure_profit_take: when the mid is at most
max(0.01, credit * (1 - TAKE_PROFIT)), buy to close -qty at round(mid, 2)
and report True; the emitted broker orders are the second component. -/
noncomputable def ensure_profit_take (env : WEnv) (c : WCon) (q : ℤ)
    (credit : ℝ) (dry : Bool) : Bool × List Intent :=
  match midOf (env.optQuote c) with
  | none => (false, [])
  | some mid =>
    let threshold : ℝ := max 0.01 (credit * (1 - TAKE_PROFIT))
    if (mid : ℝ) ≤ threshold then
      (true, (place_limit c .buy (-q) ((round2Q mid : ℚ) : ℝ) dry).2)
    else (false, [])

/-- wheel_wheel.py maybe_roll: when days to expiry is at most the roll
threshold, buy to close at the ask when positive, else the last trade
price; this function is defined in the source but never invoked by
one_cycle. -/
def maybe_roll (env : WEnv) (c : WCon) (q : ℤ) (dry : Bool) :
    Bool × List Intent :=
  if ROLL_DTE_THRESHOLD < dte_from_contract c then (false, [])
  else
    let md := env.optQuote c
    let px? : Option ℚ :=
      if 0 < md.ask then some md.ask
      else if 0 < md.last then some md.last
      else none
    match px? with
    | none => (false, [])
    | some px => (true, (place_limit c .buy (-q) ((round2Q px : ℚ) : ℝ) dry).2)

/-- wheel_wheel.py choose_strike_by_delta: strict less-than argmin of
|put delta - target| over the given strikes (the put flag is accepted and
unused, as in the source). -/
noncomputable def choose_strike_by_delta (S : ℚ) (strikes : List ℚ) (e : ℤ)
    (target r iv : ℝ) (put : Bool) : Option ℚ :=
  let T : ℝ := ((max e 0 : ℤ) : ℝ) / 365
  if T ≤ 0 then none
  else
    (strikes.foldl
      (selFoldStep (fun K : ℚ => |bs_put_delta (S : ℝ) (K : ℝ) T r iv - target|)
        (id : ℚ → ℚ))
      none).map Prod.snd

/-- wheel_wheel.py make_opt: a fully specified option contract. -/
def make_opt (symbol : PyStr) (expiry : ℤ) (strike : ℚ) (right : PyStr) : WCon :=
  .option symbol [] expiry strike right smartEx usdCur symbol

/-- wheel_wheel.py theo_option_price: Black-Scholes put price, or for calls
the parity-style fallback max(0.01, P + S - K exp(-rT)). -/
noncomputable def theo_option_price (S K : ℚ) (e : ℤ) (r iv : ℝ)
    (put : Bool) : ℝ :=
  let T : ℝ := ((max e 0 : ℤ) : ℝ) / 365
  if put then bs_put_price (S : ℝ) (K : ℝ) T r iv
  else max 0.01 (bs_put_price (S : ℝ) (K : ℝ) T r iv + (S : ℝ) -
    (K : ℝ) * Real.exp (-r * T))

/-- wheel_wheel.py mark_price_for_order:
round(max(0.05, theo * (1 + markup)), 2). -/
noncomputable def mark_price_for_order (theo markup : ℝ) : ℝ :=
  round2R (max 0.05 (theo * (1 + markup)))

/-- The selection dict returned by best_put_to_sell / best_call_to_sell. -/
structure WSel where
  contract : WCon
  theo : ℝ
  S : ℚ
  K : ℚ
  exp : ℤ

/-- wheel_wheel.py best_put_to_sell.  The dead strike-band assignment at
line 167 (overwritten before use) is omitted.  The falsy checks "if not S"
and "if not K" also reject an exact 0.0. -/
noncomputable def best_put_to_sell (env : WEnv) (sym : PyStr) (target : ℝ)
    (dteRange : ℤ × ℤ) (r iv : ℝ) : Option WSel :=
  match get_chain env sym with
  | none => none
  | some chain =>
    let exps := sortLE (chain.expirations.filter fun e =>
      decide (dteRange.1 ≤ e ∧ e ≤ dteRange.2))
    match exps with
    | [] => none
    | e :: _ =>
      match robust_spot env sym with
      | none => none
      | some S =>
        if S = 0 then none
        else
          let band := chain.strikes.filter fun k =>
            decide (7 / 10 * S ≤ k ∧ k ≤ 13 / 10 * S)
          let strikes := if band = [] then (sortLE chain.strikes).take 80 else band
          match choose_strike_by_delta S strikes e target r iv true with
          | none => none
          | some K =>
            if K = 0 then none
            else some ⟨make_opt sym e K pChar, theo_option_price S K e r iv true, S, K, e⟩

/-- wheel_wheel.py best_call_to_sell: same shape as best_put_to_sell with
the call right and the parity-style theoretical price. -/
noncomputable def best_call_to_sell (env : WEnv) (sym : PyStr) (target : ℝ)
    (dteRange : ℤ × ℤ) (r iv : ℝ) : Option WSel :=
  match get_chain env sym with
  | none => none
  | some chain =>
    let exps := sortLE (chain.expirations.filter fun e =>
      decide (dteRange.1 ≤ e ∧ e ≤ dteRange.2))
    match exps with
    | [] => none
    | e :: _ =>
      match robust_spot env sym with
      | none => none
      | some S =>
        if S = 0 then none
        else
          let band := chain.strikes.filter fun k =>
            decide (7 / 10 * S ≤ k ∧ k ≤ 13 / 10 * S)
          let strikes := if band = [] then (sortLE chain.strikes).take 80 else band
          match choose_strike_by_delta S strikes e target r iv false with
          | none => none
          | some K =>
            if K = 0 then none
            else some ⟨make_opt sym e K cChar, theo_option_price S K e r iv false, S, K, e⟩

/-- The credit-estimation step at the head of each management loop of
one_cycle: last trade price, else bid/ask mid, else a theoretical-price
fallback (which also rebinds the loop's iv variable to 0.20), else the
constant placeholder 1.00.  Returns (credit, iv after the step). -/
noncomputable def estCredit (env : WEnv) (iv : ℝ) (c : WCon) : ℝ × ℝ :=
  let md := env.optQuote c
  if 0 < md.last then ((md.last : ℝ), iv)
  else if 0 < md.bid ∧ 0 < md.ask then ((((md.bid + md.ask) / 2 : ℚ) : ℝ), iv)
  else
    let T : ℝ := ((max (dte_from_contract c) 0 : ℤ) : ℝ) / 365
    match robust_spot env c.symbol with
    | some S =>
      if S = 0 then (1.00, 0.20)
      else if c.right = pChar then
        (bs_put_price (S : ℝ) (c.strike : ℝ) T 0.03 0.20, 0.20)
      else
        (max 0.01 (bs_put_price (S : ℝ) (c.strike : ℝ) T 0.03 0.20 + (S : ℝ) -
          (c.strike : ℝ) * Real.exp (-0.03 * T)), 0.20)
    | none => (1.00, 0.20)

/-- The management loop of one_cycle over one bucket of short options:
estimate the credit, run the profit-take check, and stop at the first
action (the source's early return), threading the iv variable. -/
noncomputable def manageLoop (env : WEnv) (dry : Bool) :
    List (WCon × ℤ) → ℝ → Option (List Intent) × ℝ
  | [], iv => (none, iv)
  | (c, q) :: rest, iv =>
    let ci := estCredit env iv c
    match ensure_profit_take env c q ci.1 dry with
    | (true, placed) => (some placed, ci.2)
    | (false, _) => manageLoop env dry rest ci.2

/-- wheel_wheel.py one_cycle: classify positions, manage short puts, then
short calls, then open at most one new leg; the result is the list of
orders submitted to the broker this cycle. -/
noncomputable def one_cycle (env : WEnv) (dry : Bool) : List Intent :=
  let st := fetch_positions_and_orders env
  let shares := st.1
  let short_puts := st.2.1
  let short_calls := st.2.2.1
  let iv0 := realized_vol_annualized env env.symbol 21
  let r1 := manageLoop env dry short_puts iv0
  match r1.1 with
  | some placed => placed
  | none =>
    let r2 := manageLoop env dry short_calls r1.2
    match r2.1 with
    | some placed => placed
    | none =>
      if 100 ≤ shares ∧ short_calls = [] then
        match best_call_to_sell env env.symbol TARGET_CALL_DELTA CALL_DTE_RANGE 0.03 r2.2 with
        | some sel =>
          (place_limit sel.contract .sell (min env.qty (Int.fdiv shares 100))
            (mark_price_for_order sel.theo MARKUP_OVER_THEO) dry).2
        | none => []
      else if shares < 100 ∧ short_puts = [] then
        match best_put_to_sell env env.symbol TARGET_PUT_DELTA PUT_DTE_RANGE 0.03 r2.2 with
        | some sel =>
          (place_limit sel.contract .sell env.qty
            (mark_price_for_order sel.theo MARKUP_OVER_THEO) dry).2
        | none => []
      else []

end WW

namespace BI

/-- broker_ib.py place_limit: round the price to a marketable two-decimal
value with a 0.01 floor; in dry-run mode return None without building or
submitting the order, else submit it. -/
noncomputable def place_limit (contract : WCon) (action : Act) (qty : ℤ)
    (price : ℝ) (dry : Bool) : Option Intent × List Intent :=
  let px := round2R (max 0.01 price)
  if dry then (none, [])
  else
    let o : Intent := ⟨contract, action, qty, px, [], []⟩
    (some o, [o])

end BI

/-! Helper lemmas about the cycle controller. -/

lemma ww_place_limit_snd_length (c : WCon) (a : Act) (q : ℤ) (px : ℝ)
    (dry : Bool) : ((WW.place_limit c a q px dry).2).length ≤ 1 := by
  cases dry <;> simp [WW.place_limit]

lemma ensure_profit_take_snd_length (env : WEnv) (c : WCon) (q : ℤ)
    (credit : ℝ) (dry : Bool) :
    ((WW.ensure_profit_take env c q credit dry).2).length ≤ 1 := by
  unfold WW.ensure_profit_take
  cases WW.midOf (env.optQuote c) with
  | none => simp
  | some mid =>
    simp only
    split_ifs
    · exact ww_place_limit_snd_length _ _ _ _ _
    · simp

lemma manageLoop_some_length (env : WEnv) (dry : Bool) :
    ∀ (l : List (WCon × ℤ)) (iv : ℝ) (placed : List Intent) (iv2 : ℝ),
      WW.manageLoop env dry l iv = (some placed, iv2) → placed.length ≤ 1 := by
  intro l
  induction l with
  | nil => intro iv placed iv2 h; simp [WW.manageLoop] at h
  | cons hd rest ih =>
    intro iv placed iv2 h
    obtain ⟨c, q⟩ := hd
    simp only [WW.manageLoop] at h
    rcases hE : WW.ensure_profit_take env c q (WW.estCredit env iv c).1 dry with ⟨fired, pl⟩
    rw [hE] at h
    cases fired with
    | true =>
      simp only at h
      have hpl : pl = placed := by
        have := congrArg Prod.fst h
        simpa using this
      rw [← hpl]
      have := ensure_profit_take_snd_length env c q (WW.estCredit env iv c).1 dry
      rw [hE] at this
      simpa using this
    | false =>
      simp only at h
      exact ih _ placed iv2 h

lemma manageLoop_dry_some_nil (env : WEnv) :
    ∀ (l : List (WCon × ℤ)) (iv : ℝ) (placed : List Intent) (iv2 : ℝ),
      WW.manageLoop env true l iv = (some placed, iv2) → placed = [] := by
  intro l
  induction l with
  | nil => intro iv placed iv2 h; simp [WW.manageLoop] at h
  | cons hd rest ih =>
    intro iv placed iv2 h
    obtain ⟨c, q⟩ := hd
    simp only [WW.manageLoop] at h
    rcases hE : WW.ensure_profit_take env c q (WW.estCredit env iv c).1 true with ⟨fired, pl⟩
    rw [hE] at h
    cases fired with
    | true =>
      simp only at h
      have hpl : pl = placed := by
        have := congrArg Prod.fst h
        simpa using this
      rw [← hpl]
      have hsnd : (WW.ensure_profit_take env c q (WW.estCredit env iv c).1 true).2 = pl := by
        rw [hE]
      rw [← hsnd]
      unfold WW.ensure_profit_take
      cases WW.midOf (env.optQuote c) with
      | none => simp
      | some mid =>
        simp only
        split_ifs
        · simp [WW.place_limit]
        · simp
    | false =>
      simp only at h
      exact ih _ placed iv2 h

/-- When the first short put's profit-take check fires, the cycle emits
exactly the orders of that action and stops. -/
lemma one_cycle_head_fire (env : WEnv) (dry : Bool) (c : WCon) (q : ℤ)
    (rest : List (WCon × ℤ)) (placed : List Intent)
    (hsp : (WW.fetch_positions_and_orders env).2.1 = (c, q) :: rest)
    (hfire : WW.ensure_profit_take env c q
      (WW.estCredit env (WW.realized_vol_annualized env env.symbol 21) c).1 dry =
      (true, placed)) :
    WW.one_cycle env dry = placed := by
  simp only [WW.one_cycle, hsp, WW.manageLoop, hfire]

/-- C1: every invocation of one_cycle submits at most one order-affecting
action, for any broker state and dry-run flag; and whenever the first short
put's profit-take fires, the cycle's output is exactly that action's
orders, so no new leg is opened that cycle even when an opening opportunity
exists simultaneously. -/
theorem claim_C1 (env : WEnv) (dry : Bool) :
    (WW.one_cycle env dry).length ≤ 1 ∧
    (∀ (c : WCon) (q : ℤ) (rest : List (WCon × ℤ)) (placed : List Intent),
      (WW.fetch_positions_and_orders env).2.1 = (c, q) :: rest →
      WW.ensure_profit_take env c q
        (WW.estCredit env (WW.realized_vol_annualized env env.symbol 21) c).1 dry =
        (true, placed) →
      WW.one_cycle env dry = placed) := by
  constructor
  · simp only [WW.one_cycle]
    rcases h1 : WW.manageLoop env dry (WW.fetch_positions_and_orders env).2.1
        (WW.realized_vol_annualized env env.symbol 21) with ⟨o1, iv1⟩
    cases o1 with
    | some placed =>
      simpa using manageLoop_some_length env dry _ _ placed iv1 h1
    | none =>
      simp only
      rcases h2 : WW.manageLoop env dry (WW.fetch_positions_and_orders env).2.2.1 iv1
        with ⟨o2, iv2⟩
      cases o2 with
      | some placed =>
        simpa using manageLoop_some_length env dry _ _ placed iv2 h2
      | none =>
        simp only
        split_ifs
        · rcases WW.best_call_to_sell env env.symbol TARGET_CALL_DELTA CALL_DTE_RANGE
            0.03 iv2 with _ | sel
          · simp
          · exact ww_place_limit_snd_length _ _ _ _ _
        · rcases WW.best_put_to_sell env env.symbol TARGET_PUT_DELTA PUT_DTE_RANGE
            0.03 iv2 with _ | sel
          · simp
          · exact ww_place_limit_snd_length _ _ _ _ _
        · simp
  · intro c q rest placed hsp hfire
    exact one_cycle_head_fire env dry c q rest placed hsp hfire

/-! Concrete environments for witnesses and counterexamples. -/

/-- The string SPY. -/
def spySym : PyStr := ['S', 'P', 'Y']

/-- A nonempty option local symbol starting with SPY. -/
def spyLoc1 : PyStr := ['S', 'P', 'Y', '1']

/-- An all-zero stock ticker. -/
def zeroSQ : SQuote := ⟨0, 0, 0, 0, 0⟩

/-- A fully specified short-put contract at 30 dte, strike 100. -/
def c1put : WCon := .option spySym spyLoc1 30 100 pChar smartEx usdCur spySym

/-- State for the C1 witness: 200 shares and one short put whose
profit-take fires (last 2.00, bid 0.80, ask 1.00, so mid 0.90 is at or
below the 1.00 threshold), while a covered-call opening opportunity
(shares at least 100 and no short call) holds simultaneously. -/
def env1 : WEnv :=
  ⟨spySym, 1, [⟨.stock spySym spySym, 200⟩, ⟨c1put, -1⟩], [],
   fun _ => ⟨2, 4 / 5, 1⟩, fun _ => zeroSQ, fun _ => [], fun _ _ => [],
   fun _ => []⟩

lemma env1_fetch :
    (WW.fetch_positions_and_orders env1).2.1 = (c1put, -1) :: [] := by decide

lemma env1_estCredit :
    (WW.estCredit env1 (WW.realized_vol_annualized env1 env1.symbol 21) c1put).1 =
      ((2 : ℚ) : ℝ) := by
  norm_num [WW.estCredit, env1]

lemma env1_fire :
    WW.ensure_profit_take env1 c1put (-1) ((2 : ℚ) : ℝ) false =
      (true, [⟨c1put, Act.buy, 1, ((9 / 10 : ℚ) : ℝ), gtcTif, TAG⟩]) := by
  have hmid : WW.midOf (env1.optQuote c1put) = some (9 / 10) := by
    norm_num [WW.midOf, env1]
  have hcond : ((9 / 10 : ℚ) : ℝ) ≤ max 0.01 (((2 : ℚ) : ℝ) * (1 - TAKE_PROFIT)) := by
    rw [TAKE_PROFIT, max_eq_right (by push_cast; norm_num)]
    push_cast
    norm_num
  have hr : round2Q (9 / 10 : ℚ) = 9 / 10 := by norm_num [round2Q, round_eq]
  simp only [WW.ensure_profit_take, hmid]
  rw [if_pos hcond]
  simp [WW.place_limit, hr]

/-- Witness for C1: in state env1 both a profit-take and a new-leg
(covered call) opportunity hold, and the cycle emits exactly the
profit-take order. -/
theorem claim_C1_witness :
    (WW.fetch_positions_and_orders env1).2.1 = (c1put, -1) :: [] ∧
    WW.ensure_profit_take env1 c1put (-1)
      (WW.estCredit env1 (WW.realized_vol_annualized env1 env1.symbol 21) c1put).1 false =
      (true, [⟨c1put, Act.buy, 1, ((9 / 10 : ℚ) : ℝ), gtcTif, TAG⟩]) ∧
    100 ≤ (WW.fetch_positions_and_orders env1).1 ∧
    (WW.fetch_positions_and_orders env1).2.2.1 = [] ∧
    WW.one_cycle env1 false = [⟨c1put, Act.buy, 1, ((9 / 10 : ℚ) : ℝ), gtcTif, TAG⟩] := by
  have h2 : WW.ensure_profit_take env1 c1put (-1)
      (WW.estCredit env1 (WW.realized_vol_annualized env1 env1.symbol 21) c1put).1 false =
      (true, [⟨c1put, Act.buy, 1, ((9 / 10 : ℚ) : ℝ), gtcTif, TAG⟩]) := by
    rw [env1_estCredit]
    exact env1_fire
  exact ⟨env1_fetch, h2, by decide, by decide,
    (claim_C1 env1 false).2 c1put (-1) [] _ env1_fetch h2⟩

/-- C3 (amended): for every held short option, whenever the current mid
(bid/ask midpoint if both positive, else last trade price) is at most
(1 - f) times the credit estimate, the profit-take check emits a
buy-to-close limit order at the mid rounded to whole cents, sized to the
absolute short quantity, and reports an action; when that option heads the
short-put bucket and its cycle credit estimate equals this credit, the
cycle emits exactly that order and stops. -/
theorem claim_C3 (env : WEnv) (c : WCon) (q : ℤ) (credit : ℝ) (m : ℚ)
    (hmid : WW.midOf (env.optQuote c) = some m)
    (hle : (m : ℝ) ≤ (1 - TAKE_PROFIT) * credit) :
    WW.ensure_profit_take env c q credit false =
      (true, [⟨c, Act.buy, -q, ((round2Q m : ℚ) : ℝ), gtcTif, TAG⟩]) ∧
    ∀ rest : List (WCon × ℤ),
      (WW.fetch_positions_and_orders env).2.1 = (c, q) :: rest →
      (WW.estCredit env (WW.realized_vol_annualized env env.symbol 21) c).1 = credit →
      WW.one_cycle env false = [⟨c, Act.buy, -q, ((round2Q m : ℚ) : ℝ), gtcTif, TAG⟩] := by
  have hle2 : (m : ℝ) ≤ credit * (1 - TAKE_PROFIT) := by
    rw [mul_comm]
    exact hle
  have hcond : (m : ℝ) ≤ max 0.01 (credit * (1 - TAKE_PROFIT)) :=
    le_trans hle2 (le_max_right _ _)
  have hfire : WW.ensure_profit_take env c q credit false =
      (true, [⟨c, Act.buy, -q, ((round2Q m : ℚ) : ℝ), gtcTif, TAG⟩]) := by
    simp only [WW.ensure_profit_take, hmid]
    rw [if_pos hcond]
    simp [WW.place_limit]
  refine ⟨hfire, ?_⟩
  intro rest hsp hcred
  apply one_cycle_head_fire env false c q rest _ hsp
  rw [hcred]
  exact hfire

/-- The short-put contract of the C3 counterexample. -/
def cXput : WCon := .option spySym spyLoc1 40 100 pChar smartEx usdCur spySym

/-- State for the C3 counterexample: bid 0.90, ask 0.905, so the mid is
0.9025, not representable in whole cents. -/
def envX : WEnv :=
  ⟨spySym, 1, [⟨cXput, -1⟩], [], fun _ => ⟨0, 9 / 10, 181 / 200⟩,
   fun _ => zeroSQ, fun _ => [], fun _ _ => [], fun _ => []⟩

/-- Counterexample to C3 as stated: with credit estimate 2 and mid 0.9025
the profit-take fires, but the emitted limit price is 0.90, not the mid
price itself. -/
theorem claim_C3_counterexample :
    WW.midOf (envX.optQuote cXput) = some (361 / 400) ∧
    ((361 / 400 : ℚ) : ℝ) ≤ (1 - TAKE_PROFIT) * 2 ∧
    WW.ensure_profit_take envX cXput (-1) 2 false =
      (true, [⟨cXput, Act.buy, 1, ((9 / 10 : ℚ) : ℝ), gtcTif, TAG⟩]) ∧
    ((9 / 10 : ℚ) : ℝ) ≠ ((361 / 400 : ℚ) : ℝ) := by
  have hmid : WW.midOf (envX.optQuote cXput) = some (361 / 400) := by
    norm_num [WW.midOf, envX]
  have hcond : ((361 / 400 : ℚ) : ℝ) ≤ max 0.01 ((2 : ℝ) * (1 - TAKE_PROFIT)) := by
    rw [TAKE_PROFIT, max_eq_right (by norm_num)]
    push_cast
    norm_num
  have hr : round2Q (361 / 400 : ℚ) = 9 / 10 := by norm_num [round2Q, round_eq]
  refine ⟨hmid, ?_, ?_, ?_⟩
  · rw [TAKE_PROFIT]
    push_cast
    norm_num
  · simp only [WW.ensure_profit_take, hmid]
    rw [if_pos hcond]
    simp [WW.place_limit, hr]
  · intro h
    rw [Rat.cast_injective.eq_iff] at h
    norm_num at h

/-- Witness for C3 at a concrete state: last 1.60 gives the credit
estimate, bid 0.60 and ask 0.80 give mid 0.70, below the 0.80 threshold;
the short quantity is -2 and the emitted order buys 2 at 0.70. -/
def c3put : WCon := .option spySym spyLoc1 35 100 pChar smartEx usdCur spySym

/-- State for the C3 witness. -/
def env3 : WEnv :=
  ⟨spySym, 1, [⟨c3put, -2⟩], [], fun _ => ⟨8 / 5, 3 / 5, 4 / 5⟩,
   fun _ => zeroSQ, fun _ => [], fun _ _ => [], fun _ => []⟩

theorem claim_C3_witness :
    WW.midOf (env3.optQuote c3put) = some (7 / 10) ∧
    ((7 / 10 : ℚ) : ℝ) ≤ (1 - TAKE_PROFIT) * ((8 / 5 : ℚ) : ℝ) ∧
    WW.ensure_profit_take env3 c3put (-2) ((8 / 5 : ℚ) : ℝ) false =
      (true, [⟨c3put, Act.buy, 2, ((round2Q (7 / 10) : ℚ) : ℝ), gtcTif, TAG⟩]) ∧
    WW.one_cycle env3 false =
      [⟨c3put, Act.buy, 2, ((round2Q (7 / 10) : ℚ) : ℝ), gtcTif, TAG⟩] := by
  have hmid : WW.midOf (env3.optQuote c3put) = some (7 / 10) := by
    norm_num [WW.midOf, env3]
  have hle : ((7 / 10 : ℚ) : ℝ) ≤ (1 - TAKE_PROFIT) * ((8 / 5 : ℚ) : ℝ) := by
    rw [TAKE_PROFIT]
    push_cast
    norm_num
  have hmain := claim_C3 env3 c3put (-2) ((8 / 5 : ℚ) : ℝ) (7 / 10) hmid hle
  have hcred : (WW.estCredit env3
      (WW.realized_vol_annualized env3 env3.symbol 21) c3put).1 = ((8 / 5 : ℚ) : ℝ) := by
    norm_num [WW.estCredit, env3]
  refine ⟨hmid, hle, ?_, ?_⟩
  · simpa using hmain.1
  · simpa using hmain.2 [] (by decide) hcred

/-- The 3-dte short-put contract of the C2 failing input. -/
def cRoll : WCon := .option spySym spyLoc1 3 100 pChar smartEx usdCur spySym

/-- State for the C2 failing input: a short put at 3 dte that is not yet
profitable (last 2.00, bid 1.90, ask 2.10, mid 2.00 above the 1.00
profit-take threshold) and no shares. -/
def envRoll : WEnv :=
  ⟨spySym, 1, [⟨cRoll, -1⟩], [], fun _ => ⟨2, 19 / 10, 21 / 10⟩,
   fun _ => zeroSQ, fun _ => [], fun _ _ => [], fun _ => []⟩

lemma envRoll_fetch : WW.fetch_positions_and_orders envRoll =
    (0, (cRoll, -1) :: [], [], []) := by decide

lemma envRoll_no_fire :
    WW.ensure_profit_take envRoll cRoll (-1)
      (WW.estCredit envRoll (WW.realized_vol_annualized envRoll envRoll.symbol 21) cRoll).1
      false = (false, []) := by
  have hcred : (WW.estCredit envRoll
      (WW.realized_vol_annualized envRoll envRoll.symbol 21) cRoll).1 = ((2 : ℚ) : ℝ) := by
    norm_num [WW.estCredit, envRoll]
  have hmid : WW.midOf (envRoll.optQuote cRoll) = some 2 := by
    norm_num [WW.midOf, envRoll]
  have hcond : ¬ (((2 : ℚ) : ℝ) ≤ max 0.01 (((2 : ℚ) : ℝ) * (1 - TAKE_PROFIT))) := by
    rw [TAKE_PROFIT, max_eq_right (by push_cast; norm_num)]
    push_cast
    norm_num
  rw [hcred]
  simp only [WW.ensure_profit_take, hmid]
  rw [if_neg hcond]

/-- C2 failing input: the wheel cycle never rolls.  At 3 dte, below the
roll threshold 5, with the position not yet profitable, maybe_roll as
defined in the source would emit the buy-to-close at the ask 2.10, but
one_cycle never invokes maybe_roll, so the cycle emits nothing at all. -/
theorem claim_C2_code_bug :
    WW.dte_from_contract cRoll ≤ ROLL_DTE_THRESHOLD ∧
    WW.maybe_roll envRoll cRoll (-1) false =
      (true, [⟨cRoll, Act.buy, 1, ((21 / 10 : ℚ) : ℝ), gtcTif, TAG⟩]) ∧
    WW.ensure_profit_take envRoll cRoll (-1)
      (WW.estCredit envRoll (WW.realized_vol_annualized envRoll envRoll.symbol 21) cRoll).1
      false = (false, []) ∧
    WW.one_cycle envRoll false = [] := by
  refine ⟨by decide, ?_, envRoll_no_fire, ?_⟩
  · have hr : round2Q (21 / 10 : ℚ) = 21 / 10 := by norm_num [round2Q, round_eq]
    simp only [WW.maybe_roll]
    rw [if_neg (by decide)]
    norm_num [WW.place_limit, envRoll, hr]
  · simp only [WW.one_cycle, envRoll_fetch]
    simp only [WW.manageLoop, envRoll_no_fire]
    rw [if_neg (by decide), if_neg (by decide)]

/-- C10: with the dry-run flag set, order placement in both source files
returns None and submits nothing to the broker, and a whole dry-run cycle
submits no order, leaving broker order state unchanged. -/
theorem claim_C10 :
    (∀ (c : WCon) (a : Act) (q : ℤ) (px : ℝ),
      WW.place_limit c a q px true = (none, []) ∧
      BI.place_limit c a q px true = (none, [])) ∧
    ∀ env : WEnv, WW.one_cycle env true = [] := by
  constructor
  · intro c a q px
    constructor
    · simp [WW.place_limit]
    · simp [BI.place_limit]
  · intro env
    simp only [WW.one_cycle]
    rcases h1 : WW.manageLoop env true (WW.fetch_positions_and_orders env).2.1
        (WW.realized_vol_annualized env env.symbol 21) with ⟨o1, iv1⟩
    cases o1 with
    | some placed =>
      simpa using manageLoop_dry_some_nil env _ _ placed iv1 h1
    | none =>
      simp only
      rcases h2 : WW.manageLoop env true (WW.fetch_positions_and_orders env).2.2.1 iv1
        with ⟨o2, iv2⟩
      cases o2 with
      | some placed =>
        simpa using manageLoop_dry_some_nil env _ _ placed iv2 h2
      | none =>
        simp only
        split_ifs
        · rcases WW.best_call_to_sell env env.symbol TARGET_CALL_DELTA CALL_DTE_RANGE
            0.03 iv2 with _ | sel
          · simp
          · simp [WW.place_limit]
        · rcases WW.best_put_to_sell env env.symbol TARGET_PUT_DELTA PUT_DTE_RANGE
            0.03 iv2 with _ | sel
          · simp
          · simp [WW.place_limit]
        · simp

/-- A trivial wheel environment with empty data. -/
def envTrivW : WEnv :=
  ⟨spySym, 1, [], [], fun _ => ⟨0, 0, 0⟩, fun _ => zeroSQ, fun _ => [],
   fun _ _ => [], fun _ => []⟩

namespace BI

/-- broker_ib.py realized_vol_annualized, exception-aware: the same
computation as realized_vol_annualized, with statistics.stdev's
StatisticsError propagated to the caller modelled as none. -/
noncomputable def realized_vol_annualizedPy (env : IBEnvB) (sym : PyStr)
    (lookback : ℕ) : Option ℝ :=
  let closes := env.histCloses sym (lookback + 5)
  if closes.length < lookback + 1 then some 0.20
  else (stdevPy (pySliceLast lookback (logReturns closes))).map
    fun s => s * Real.sqrt 252

end BI

namespace WW

/-- wheel_wheel.py realized_vol_annualized, exception-aware (same shape as
the broker_ib.py copy). -/
noncomputable def realized_vol_annualizedPy (env : WEnv) (sym : PyStr)
    (lookback : ℕ) : Option ℝ :=
  let closes := env.histCloses sym (lookback + 5)
  if closes.length < lookback + 1 then some 0.20
  else (stdevPy (pySliceLast lookback (logReturns closes))).map
    fun s => s * Real.sqrt 252

end WW

lemma logReturns_length (closes : List ℚ) :
    (logReturns closes).length = closes.length - 1 := by
  simp [logReturns]

lemma pySliceLast_length {α : Type} (k : ℕ) (l : List α) (hk : k ≠ 0)
    (hlen : k ≤ l.length) : (pySliceLast k l).length = k := by
  rw [pySliceLast, if_neg hk, List.length_drop]
  omega

/-- At the default lookback 21, the only lookback the program ever passes,
the exception-aware volatility estimator of broker_ib.py never raises and
agrees with the total model used by the selection plumbing. -/
lemma bi_realized_vol_21 (env : IBEnvB) (sym : PyStr) :
    BI.realized_vol_annualizedPy env sym 21 =
      some (BI.realized_vol_annualized env sym 21) := by
  simp only [BI.realized_vol_annualizedPy, BI.realized_vol_annualized]
  by_cases h : (env.histCloses sym (21 + 5)).length < 21 + 1
  · rw [if_pos h, if_pos h]
  · rw [if_neg h, if_neg h]
    have hlen : (pySliceLast 21 (logReturns (env.histCloses sym (21 + 5)))).length
        = 21 := by
      apply pySliceLast_length _ _ (by norm_num)
      rw [logReturns_length]
      omega
    rw [stdevPy, if_neg (by omega)]
    rfl

/-- At the default lookback 21, the only lookback one_cycle ever passes,
the exception-aware volatility estimator of wheel_wheel.py never raises
and agrees with the total model used by the cycle. -/
lemma ww_realized_vol_21 (env : WEnv) (sym : PyStr) :
    WW.realized_vol_annualizedPy env sym 21 =
      some (WW.realized_vol_annualized env sym 21) := by
  simp only [WW.realized_vol_annualizedPy, WW.realized_vol_annualized]
  by_cases h : (env.histCloses sym (21 + 5)).length < 21 + 1
  · rw [if_pos h, if_pos h]
  · rw [if_neg h, if_neg h]
    have hlen : (pySliceLast 21 (logReturns (env.histCloses sym (21 + 5)))).length
        = 21 := by
      apply pySliceLast_length _ _ (by norm_num)
      rw [logReturns_length]
      omega
    rw [stdevPy, if_neg (by omega)]
    rfl

/-- A wheel environment whose history request always returns the two
closes 1 and 4. -/
def envC8 : WEnv :=
  ⟨spySym, 1, [], [], fun _ => ⟨0, 0, 0⟩, fun _ => zeroSQ, fun _ => [],
   fun _ _ => [1, 4], fun _ => []⟩

/-- A broker environment whose history request always returns the two
closes 1 and 4. -/
def envC8B : IBEnvB :=
  ⟨fun _ => zeroSQ, fun _ => zeroSQ, fun _ => [], fun _ _ => [1, 4],
   fun _ => []⟩

/-- Counterexample to C8 as stated: at lookback 1 both estimators receive
two closes, at least lookback+1, so the claim says they return the sample
standard deviation of the trailing 1 log return times sqrt 252 -- but
statistics.stdev raises StatisticsError on a single data point, so the
program raises instead of returning a value; likewise at lookback 0, where
the slice rets[-0:] degenerates to the whole one-element return list. -/
theorem claim_C8_counterexample :
    1 + 1 ≤ (envC8.histCloses spySym (1 + 5)).length ∧
    WW.realized_vol_annualizedPy envC8 spySym 1 = none ∧
    BI.realized_vol_annualizedPy envC8B spySym 1 = none ∧
    0 + 1 ≤ (envC8.histCloses spySym (0 + 5)).length ∧
    WW.realized_vol_annualizedPy envC8 spySym 0 = none := by
  have hlen1 : (pySliceLast 1 (logReturns [(1 : ℚ), 4])).length = 1 := by
    apply pySliceLast_length _ _ (by norm_num)
    rw [logReturns_length]
    decide
  have hlen0 : (pySliceLast 0 (logReturns [(1 : ℚ), 4])).length = 1 := by
    rw [pySliceLast, if_pos rfl, logReturns_length]
    decide
  refine ⟨by decide, ?_, ?_, by decide, ?_⟩
  · simp only [WW.realized_vol_annualizedPy, envC8]
    rw [if_neg (by norm_num), stdevPy, if_pos (by omega)]
    rfl
  · simp only [BI.realized_vol_annualizedPy, envC8B]
    rw [if_neg (by norm_num), stdevPy, if_pos (by omega)]
    rfl
  · simp only [WW.realized_vol_annualizedPy, envC8]
    rw [if_neg (by norm_num), stdevPy, if_pos (by omega)]
    rfl

/-- C8 (amended): for every symbol and lookback of at least 2, the
exception-aware realized annualized volatility of both source files
returns exactly the fixed default 0.20 whenever fewer than lookback+1
closes are available, and otherwise returns the sample standard deviation
of the trailing lookback log returns of consecutive closes times sqrt 252;
every value it returns is nonnegative.  At lookback 1 (and 0) the
non-fallback branch raises StatisticsError instead of returning. -/
theorem claim_C8 (envB : IBEnvB) (envW : WEnv) (sym : PyStr) (lookback : ℕ)
    (hlb : 2 ≤ lookback) :
    ((envB.histCloses sym (lookback + 5)).length < lookback + 1 →
      BI.realized_vol_annualizedPy envB sym lookback = some 0.20) ∧
    (lookback + 1 ≤ (envB.histCloses sym (lookback + 5)).length →
      BI.realized_vol_annualizedPy envB sym lookback =
        some (stdevR ((logReturns (envB.histCloses sym (lookback + 5))).drop
          ((logReturns (envB.histCloses sym (lookback + 5))).length - lookback)) *
          Real.sqrt 252)) ∧
    (∀ v : ℝ, BI.realized_vol_annualizedPy envB sym lookback = some v → 0 ≤ v) ∧
    ((envW.histCloses sym (lookback + 5)).length < lookback + 1 →
      WW.realized_vol_annualizedPy envW sym lookback = some 0.20) ∧
    (lookback + 1 ≤ (envW.histCloses sym (lookback + 5)).length →
      WW.realized_vol_annualizedPy envW sym lookback =
        some (stdevR ((logReturns (envW.histCloses sym (lookback + 5))).drop
          ((logReturns (envW.histCloses sym (lookback + 5))).length - lookback)) *
          Real.sqrt 252)) ∧
    ∀ v : ℝ, WW.realized_vol_annualizedPy envW sym lookback = some v → 0 ≤ v := by
  have hk : lookback ≠ 0 := by omega
  refine ⟨?_, ?_, ?_, ?_, ?_, ?_⟩
  · intro h
    simp only [BI.realized_vol_annualizedPy]
    rw [if_pos h]
  · intro h
    have hlen : ¬ (((logReturns (envB.histCloses sym (lookback + 5))).drop
        ((logReturns (envB.histCloses sym (lookback + 5))).length - lookback)).length
        < 2) := by
      rw [List.length_drop, logReturns_length]
      omega
    simp only [BI.realized_vol_annualizedPy, pySliceLast, stdevPy]
    rw [if_neg (by omega), if_neg hk, if_neg hlen]
    rfl
  · intro v hv
    simp only [BI.realized_vol_annualizedPy, stdevPy] at hv
    split_ifs at hv with h1 h2
    · rw [Option.some_inj] at hv
      rw [← hv]
      norm_num
    · exact Option.noConfusion hv
    · rw [Option.map_some'] at hv
      rw [Option.some_inj] at hv
      rw [← hv]
      exact mul_nonneg (Real.sqrt_nonneg _) (Real.sqrt_nonneg _)
  · intro h
    simp only [WW.realized_vol_annualizedPy]
    rw [if_pos h]
  · intro h
    have hlen : ¬ (((logReturns (envW.histCloses sym (lookback + 5))).drop
        ((logReturns (envW.histCloses sym (lookback + 5))).length - lookback)).length
        < 2) := by
      rw [List.length_drop, logReturns_length]
      omega
    simp only [WW.realized_vol_annualizedPy, pySliceLast, stdevPy]
    rw [if_neg (by omega), if_neg hk, if_neg hlen]
    rfl
  · intro v hv
    simp only [WW.realized_vol_annualizedPy, stdevPy] at hv
    split_ifs at hv with h1 h2
    · rw [Option.some_inj] at hv
      rw [← hv]
      norm_num
    · exact Option.noConfusion hv
    · rw [Option.map_some'] at hv
      rw [Option.some_inj] at hv
      rw [← hv]
      exact mul_nonneg (Real.sqrt_nonneg _) (Real.sqrt_nonneg _)

/-- Witness for C8: with no history available, both estimators return
exactly 0.20 at the default lookback 21. -/
theorem claim_C8_witness :
    2 ≤ 21 ∧
    BI.realized_vol_annualizedPy envTrivB spySym 21 = some 0.20 ∧
    WW.realized_vol_annualizedPy envTrivW spySym 21 = some 0.20 :=
  ⟨by norm_num,
   (claim_C8 envTrivB envTrivW spySym 21 (by norm_num)).1 (by decide),
   (claim_C8 envTrivB envTrivW spySym 21 (by norm_num)).2.2.2.1 (by decide)⟩

/-! Embedding of run.py: position detection and the covered-call path. -/

/-- The string STK. -/
def stkTy : PyStr := ['S', 'T', 'K']

/-- The string OPT. -/
def optTy : PyStr := ['O', 'P', 'T']

/-- A broker position contract as read by run.py find_positions: symbol,
security type and option right. -/
structure RCon where
  symbol : PyStr
  secType : PyStr
  right : PyStr
deriving DecidableEq

/-- A broker position record for run.py. -/
structure RPos where
  contract : RCon
  position : ℤ

namespace RUN

/-- One iteration of the run.py find_positions loop: skip other symbols,
accumulate stock quantities into shares, and bucket negative-quantity
options into short puts or short calls by right. -/
def classifyStep (sym : PyStr) (acc : ℤ × List (RCon × ℤ) × List (RCon × ℤ))
    (p : RPos) : ℤ × List (RCon × ℤ) × List (RCon × ℤ) :=
  if p.contract.symbol ≠ sym then acc
  else if p.contract.secType = stkTy then (acc.1 + p.position, acc.2.1, acc.2.2)
  else if p.contract.secType = optTy then
    if p.position < 0 then
      if p.contract.right = pChar then
        (acc.1, acc.2.1 ++ [(p.contract, p.position)], acc.2.2)
      else if p.contract.right = cChar then
        (acc.1, acc.2.1, acc.2.2 ++ [(p.contract, p.position)])
      else acc
    else acc
  else acc

/-- run.py find_positions. -/
def find_positions (sym : PyStr) (ps : List RPos) :
    ℤ × List (RCon × ℤ) × List (RCon × ℤ) :=
  ps.foldl (classifyStep sym) (0, [], [])

/-- run.py sell_covered_call's strike adjustment: when the put-proxy strike
is strictly below spot, bump it to round(max(strike, spot * 1.03), 2). -/
def ccAdjustStrike (strike spot : ℚ) : ℚ :=
  if strike < spot then round2Q (max strike (spot * (103 / 100))) else strike

/-- run.py sell_covered_call: select via the put-delta proxy, adjust the
strike, price the call from the lower bound max(0.05, spot - strike) with
markup, and sell max(1, shares // 100) contracts. -/
noncomputable def sell_covered_call (env : IBEnvB) (sym : PyStr) (shares : ℤ)
    (callDelta : ℝ) (dteRange : ℤ × ℤ) (markup : ℚ) (dry : Bool) : List Intent :=
  match BI.pick_put_by_model_delta env sym callDelta dteRange 0.03 with
  | none => []
  | some sel =>
    let strike := ccAdjustStrike sel.strike sel.spot
    let theoCall : ℚ := max (5 / 100) (sel.spot - strike)
    let px := round2Q (theoCall * (1 + markup))
    let con : WCon := .option sym [] sel.exp strike cChar smartEx usdCur sym
    (BI.place_limit con .sell (max 1 (Int.fdiv shares 100)) ((px : ℚ) : ℝ) dry).2

end RUN

/-- A chain with a single expiration at 30 dte and the single strike 95,
used to evaluate the wheel covered-call path concretely. -/
def chainC6 : ChainP := ⟨smartEx, [30], [95]⟩

/-- A wheel environment whose snapshot spot is 100 and whose chain is
chainC6: the put-proxy selection can only pick strike 95, below spot. -/
def envC6 : WEnv :=
  ⟨spySym, 1, [], [], fun _ => ⟨0, 0, 0⟩, fun _ => ⟨100, 0, 0, 0, 0⟩,
   fun _ => [], fun _ _ => [], fun _ => [chainC6]⟩

/-- The selection best_call_to_sell returns on envC6: the call contract is
composed directly at the selected strike 95 although spot is 100. -/
noncomputable def selC6 : WW.WSel :=
  ⟨WW.make_opt spySym 30 95 cChar,
   WW.theo_option_price 100 95 30 0.03 0.20 false, 100, 95, 30⟩

lemma bestCall_envC6 :
    WW.best_call_to_sell envC6 spySym TARGET_CALL_DELTA CALL_DTE_RANGE 0.03 0.20 =
      some selC6 := by
  have hchain : WW.get_chain envC6 spySym = some chainC6 := rfl
  have hfil : chainC6.expirations.filter
      (fun e => decide (CALL_DTE_RANGE.1 ≤ e ∧ e ≤ CALL_DTE_RANGE.2)) = [30] := by
    decide
  have hexps : sortLE [(30 : ℤ)] = [30] := List.perm_singleton.mp (sortLE_perm [30])
  have hfp : firstPriceQ (envC6.stockSnap spySym) = some 100 := by
    simp only [firstPriceQ, envC6]
    rw [List.find?_cons_of_pos _ (by norm_num)]
  have hspot : WW.robust_spot envC6 spySym = some 100 := by
    simp only [WW.robust_spot, hfp]
  have hband : chainC6.strikes.filter
      (fun k => decide (7 / 10 * (100 : ℚ) ≤ k ∧ k ≤ 13 / 10 * 100)) = [95] := by
    rw [show chainC6.strikes = [(95 : ℚ)] from rfl, List.filter_cons]
    norm_num
  have hchoose : WW.choose_strike_by_delta 100 [95] 30 TARGET_CALL_DELTA 0.03 0.20 false
      = some 95 := by
    simp only [WW.choose_strike_by_delta]
    rw [if_neg (by rw [show max (30 : ℤ) 0 = 30 from rfl]; push_cast; norm_num)]
    simp [selFoldStep]
  simp only [WW.best_call_to_sell, hchain, hfil, hexps, hspot]
  rw [if_neg (by norm_num : ¬((100 : ℚ) = 0)), hband,
    if_neg (List.cons_ne_nil (95 : ℚ) []), hchoose]
  dsimp only
  rw [if_neg (by norm_num : ¬((95 : ℚ) = 0))]
  rfl

/-- Counterexample to C6 as stated: (a) at strike equal to spot (at, not
strictly below), run.py leaves the strike at 100 instead of bumping it to
max(100, 1.03 * 100) = 103; (b) when the bump does fire, the strike used
is the cent-rounded 103.41 at spot 100.4, not max(strike, 1.03 spot) =
103.412; (c) on the wheel_wheel.py best_call_to_sell path the call
contract is composed directly at the selected strike (here 95, below spot
100), with no upward bump at all. -/
theorem claim_C6_counterexample :
    RUN.ccAdjustStrike 100 100 = 100 ∧
    max (100 : ℚ) (100 * (103 / 100)) = 103 ∧
    (100 : ℚ) ≠ 103 ∧
    RUN.ccAdjustStrike 90 (502 / 5) = 10341 / 100 ∧
    max (90 : ℚ) (502 / 5 * (103 / 100)) = 25853 / 250 ∧
    (10341 / 100 : ℚ) ≠ 25853 / 250 ∧
    WW.best_call_to_sell envC6 spySym TARGET_CALL_DELTA CALL_DTE_RANGE 0.03 0.20 =
      some selC6 ∧
    selC6.K ≤ selC6.S ∧
    selC6.contract.strike = selC6.K ∧
    selC6.K ≠ max selC6.K (selC6.S * (103 / 100)) := by
  have hmax : max (90 : ℚ) (502 / 5 * (103 / 100)) = 25853 / 250 := by
    rw [max_eq_right (by norm_num)]
    norm_num
  refine ⟨?_, by norm_num, by norm_num, ?_, hmax, by norm_num, bestCall_envC6,
    ?_, rfl, ?_⟩
  · rw [RUN.ccAdjustStrike, if_neg (by norm_num)]
  · rw [RUN.ccAdjustStrike, if_pos (by norm_num), hmax]
    norm_num [round2Q, round_eq]
  · rw [show selC6.K = (95 : ℚ) from rfl, show selC6.S = (100 : ℚ) from rfl]
    norm_num
  · rw [show selC6.K = (95 : ℚ) from rfl, show selC6.S = (100 : ℚ) from rfl,
      max_eq_right (by norm_num)]
    norm_num

/-- C6 (amended): on run.py's covered-call path, a strike strictly below
the resolved spot is set to round(max(strike, 1.03 spot), 2) before order
composition while a strike at or above spot is left unchanged; on
wheel_wheel.py's best_call_to_sell path the selected strike is used for
the call contract unchanged, with no upward bump at all. -/
theorem claim_C6 :
    (∀ strike spot : ℚ,
      (strike < spot →
        RUN.ccAdjustStrike strike spot = round2Q (max strike (spot * (103 / 100)))) ∧
      (spot ≤ strike → RUN.ccAdjustStrike strike spot = strike)) ∧
    (∀ (env : WEnv) (sym : PyStr) (target : ℝ) (dteRange : ℤ × ℤ) (r iv : ℝ)
        (sel : WW.WSel),
      WW.best_call_to_sell env sym target dteRange r iv = some sel →
      sel.contract.strike = sel.K) := by
  constructor
  · intro strike spot
    constructor
    · intro h
      rw [RUN.ccAdjustStrike, if_pos h]
    · intro h
      rw [RUN.ccAdjustStrike, if_neg (not_lt.mpr h)]
  · intro env sym target dteRange r iv sel h
    simp only [WW.best_call_to_sell] at h
    repeat' split at h
    all_goals first
      | exact Option.noConfusion h
      | (injection h with h2
         rw [← h2]
         rfl)

/-- Witness for C6: run.py bumps strike 90 and keeps strike 105 at spot
100, and the wheel path composes the call at the selected strike 95 in
envC6. -/
theorem claim_C6_witness :
    ((90 : ℚ) < 100 ∧
      RUN.ccAdjustStrike 90 100 = round2Q (max 90 (100 * (103 / 100)))) ∧
    ((100 : ℚ) ≤ 105 ∧ RUN.ccAdjustStrike 105 100 = 105) ∧
    (WW.best_call_to_sell envC6 spySym TARGET_CALL_DELTA CALL_DTE_RANGE 0.03 0.20 =
        some selC6 ∧
      selC6.contract.strike = selC6.K) :=
  ⟨⟨by norm_num, (claim_C6.1 90 100).1 (by norm_num)⟩,
   ⟨by norm_num, (claim_C6.1 105 100).2 (by norm_num)⟩,
   ⟨bestCall_envC6,
    claim_C6.2 envC6 spySym TARGET_CALL_DELTA CALL_DTE_RANGE 0.03 0.20 selC6
      bestCall_envC6⟩⟩

/-! Classification invariants for C7. -/

lemma run_step_cases (sym : PyStr) (acc : ℤ × List (RCon × ℤ) × List (RCon × ℤ))
    (p : RPos) :
    ((RUN.classifyStep sym acc p).2.1 = acc.2.1 ∧
      (RUN.classifyStep sym acc p).2.2 = acc.2.2) ∨
    (p.position < 0 ∧ (RUN.classifyStep sym acc p).2.1 =
      acc.2.1 ++ [(p.contract, p.position)] ∧
      (RUN.classifyStep sym acc p).2.2 = acc.2.2) ∨
    (p.position < 0 ∧ (RUN.classifyStep sym acc p).2.1 = acc.2.1 ∧
      (RUN.classifyStep sym acc p).2.2 = acc.2.2 ++ [(p.contract, p.position)]) := by
  unfold RUN.classifyStep
  split_ifs with h1 h2 h3 h4 h5 h6
  · exact Or.inl ⟨rfl, rfl⟩
  · exact Or.inl ⟨rfl, rfl⟩
  · exact Or.inr (Or.inl ⟨h4, rfl, rfl⟩)
  · exact Or.inr (Or.inr ⟨h4, rfl, rfl⟩)
  · exact Or.inl ⟨rfl, rfl⟩
  · exact Or.inl ⟨rfl, rfl⟩
  · exact Or.inl ⟨rfl, rfl⟩

lemma run_step_shares (sym : PyStr) (acc : ℤ × List (RCon × ℤ) × List (RCon × ℤ))
    (p : RPos) :
    (RUN.classifyStep sym acc p).1 = acc.1 +
      (if p.contract.symbol = sym ∧ p.contract.secType = stkTy then p.position else 0) := by
  unfold RUN.classifyStep
  split_ifs <;> first
    | (exfalso; tauto)
    | simp
    | (simp; tauto)

lemma run_foldl_spec (sym : PyStr) :
    ∀ (ps : List RPos) (acc : ℤ × List (RCon × ℤ) × List (RCon × ℤ)),
      ((ps.foldl (RUN.classifyStep sym) acc).1 = acc.1 +
        ((ps.filter fun p =>
          decide (p.contract.symbol = sym ∧ p.contract.secType = stkTy)).map
          fun p => p.position).sum) ∧
      ((∀ x ∈ acc.2.1, x.2 < 0) →
        ∀ x ∈ (ps.foldl (RUN.classifyStep sym) acc).2.1, x.2 < 0) ∧
      ((∀ x ∈ acc.2.2, x.2 < 0) →
        ∀ x ∈ (ps.foldl (RUN.classifyStep sym) acc).2.2, x.2 < 0) := by
  intro ps
  induction ps with
  | nil =>
    intro acc
    refine ⟨by simp, fun h => h, fun h => h⟩
  | cons p ps ih =>
    intro acc
    refine ⟨?_, ?_, ?_⟩
    · show (ps.foldl (RUN.classifyStep sym) (RUN.classifyStep sym acc p)).1 = _
      rw [(ih (RUN.classifyStep sym acc p)).1, run_step_shares]
      by_cases hp : p.contract.symbol = sym ∧ p.contract.secType = stkTy
      · rw [if_pos hp, List.filter_cons_of_pos (by simpa using hp)]
        simp only [List.map_cons, List.sum_cons]
        ring
      · rw [if_neg hp, List.filter_cons_of_neg (by simpa using hp)]
        ring
    · intro h x hx
      refine (ih (RUN.classifyStep sym acc p)).2.1 ?_ x hx
      intro y hy
      rcases run_step_cases sym acc p with ⟨e1, _⟩ | ⟨hneg, e1, _⟩ | ⟨_, e1, _⟩
      · rw [e1] at hy; exact h y hy
      · rw [e1] at hy
        rcases List.mem_append.mp hy with hm | hm
        · exact h y hm
        · simp only [List.mem_singleton] at hm
          rw [hm]
          exact hneg
      · rw [e1] at hy; exact h y hy
    · intro h x hx
      refine (ih (RUN.classifyStep sym acc p)).2.2 ?_ x hx
      intro y hy
      rcases run_step_cases sym acc p with ⟨_, e2⟩ | ⟨_, _, e2⟩ | ⟨hneg, _, e2⟩
      · rw [e2] at hy; exact h y hy
      · rw [e2] at hy; exact h y hy
      · rw [e2] at hy
        rcases List.mem_append.mp hy with hm | hm
        · exact h y hm
        · simp only [List.mem_singleton] at hm
          rw [hm]
          exact hneg

/-- True exactly for a stock contract whose upper-cased local symbol is the
target symbol, the shares-accumulation test of fetch_positions_and_orders. -/
def WCon.isStockOn (sym : PyStr) : WCon → Bool
  | .stock _ ls => decide (pyUpper ls = sym)
  | .option _ _ _ _ _ _ _ _ => false

lemma ww_step_buckets (sym : PyStr) (acc : ℤ × List (WCon × ℤ) × List (WCon × ℤ))
    (p : WPos) :
    ((WW.classifyStep sym acc p).2.1 = acc.2.1 ∨
      (p.position < 0 ∧ (WW.classifyStep sym acc p).2.1 =
        acc.2.1 ++ [(WW.normalize_option p.contract sym, p.position)])) ∧
    ((WW.classifyStep sym acc p).2.2 = acc.2.2 ∨
      (p.position < 0 ∧ (WW.classifyStep sym acc p).2.2 =
        acc.2.2 ++ [(WW.normalize_option p.contract sym, p.position)])) := by
  rcases p with ⟨c, pos⟩
  cases c with
  | stock s ls =>
    constructor
    · simp only [WW.classifyStep]
      by_cases h : pyUpper ls = sym
      · rw [if_pos h]; exact Or.inl rfl
      · rw [if_neg h]; exact Or.inl rfl
    · simp only [WW.classifyStep]
      by_cases h : pyUpper ls = sym
      · rw [if_pos h]; exact Or.inl rfl
      · rw [if_neg h]; exact Or.inl rfl
  | option s ls d k r ex cur tc =>
    by_cases h1 : ls ≠ [] ∧ List.isPrefixOf sym ls = true
    · constructor
      · simp only [WW.classifyStep]
        rw [if_pos h1]
        dsimp only
        by_cases h2 : (WW.normalize_option (WCon.option s ls d k r ex cur tc) sym).right
            = pChar ∧ pos < 0
        · rw [if_pos h2]
          exact Or.inr ⟨h2.2, rfl⟩
        · rw [if_neg h2]
          exact Or.inl rfl
      · simp only [WW.classifyStep]
        rw [if_pos h1]
        dsimp only
        by_cases h3 : (WW.normalize_option (WCon.option s ls d k r ex cur tc) sym).right
            = cChar ∧ pos < 0
        · rw [if_pos h3]
          exact Or.inr ⟨h3.2, rfl⟩
        · rw [if_neg h3]
          exact Or.inl rfl
    · constructor
      · simp only [WW.classifyStep]
        rw [if_neg h1]
        exact Or.inl rfl
      · simp only [WW.classifyStep]
        rw [if_neg h1]
        exact Or.inl rfl

lemma ww_step_shares (sym : PyStr) (acc : ℤ × List (WCon × ℤ) × List (WCon × ℤ))
    (p : WPos) :
    (WW.classifyStep sym acc p).1 = acc.1 +
      (if p.contract.isStockOn sym then p.position else 0) := by
  rcases p with ⟨c, pos⟩
  cases c with
  | stock s ls =>
    simp only [WW.classifyStep, WCon.isStockOn]
    by_cases h : pyUpper ls = sym
    · rw [if_pos h, if_pos (decide_eq_true h)]
    · rw [if_neg h, if_neg (by simpa using h), add_zero]
  | option s ls d k r ex cur tc =>
    simp only [WW.classifyStep, WCon.isStockOn]
    by_cases h1 : ls ≠ [] ∧ List.isPrefixOf sym ls = true
    · rw [if_pos h1]
      simp
    · rw [if_neg h1]
      simp

lemma ww_foldl_spec (sym : PyStr) :
    ∀ (ps : List WPos) (acc : ℤ × List (WCon × ℤ) × List (WCon × ℤ)),
      ((ps.foldl (WW.classifyStep sym) acc).1 = acc.1 +
        ((ps.filter fun p => p.contract.isStockOn sym).map fun p => p.position).sum) ∧
      ((∀ x ∈ acc.2.1, x.2 < 0) →
        ∀ x ∈ (ps.foldl (WW.classifyStep sym) acc).2.1, x.2 < 0) ∧
      ((∀ x ∈ acc.2.2, x.2 < 0) →
        ∀ x ∈ (ps.foldl (WW.classifyStep sym) acc).2.2, x.2 < 0) := by
  intro ps
  induction ps with
  | nil =>
    intro acc
    refine ⟨by simp, fun h => h, fun h => h⟩
  | cons p ps ih =>
    intro acc
    refine ⟨?_, ?_, ?_⟩
    · show (ps.foldl (WW.classifyStep sym) (WW.classifyStep sym acc p)).1 = _
      rw [(ih (WW.classifyStep sym acc p)).1, ww_step_shares]
      by_cases hp : p.contract.isStockOn sym = true
      · rw [if_pos hp,
          List.filter_cons_of_pos (p := fun q : WPos => WCon.isStockOn sym q.contract) hp]
        simp only [List.map_cons, List.sum_cons]
        ring
      · rw [if_neg hp,
          List.filter_cons_of_neg (p := fun q : WPos => WCon.isStockOn sym q.contract) hp]
        ring
    · intro h x hx
      refine (ih (WW.classifyStep sym acc p)).2.1 ?_ x hx
      intro y hy
      rcases (ww_step_buckets sym acc p).1 with e1 | ⟨hneg, e1⟩
      · rw [e1] at hy; exact h y hy
      · rw [e1] at hy
        rcases List.mem_append.mp hy with hm | hm
        · exact h y hm
        · simp only [List.mem_singleton] at hm
          rw [hm]
          exact hneg
    · intro h x hx
      refine (ih (WW.classifyStep sym acc p)).2.2 ?_ x hx
      intro y hy
      rcases (ww_step_buckets sym acc p).2 with e2 | ⟨hneg, e2⟩
      · rw [e2] at hy; exact h y hy
      · rw [e2] at hy
        rcases List.mem_append.mp hy with hm | hm
        · exact h y hm
        · simp only [List.mem_singleton] at hm
          rw [hm]
          exact hneg

/-- C7: for every broker position list, neither classifier ever places a
positive-quantity (long) option into the short-put or short-call buckets --
every bucket element has quantity strictly below zero -- and equity
positions on the target symbol are accumulated into a single signed share
count. -/
theorem claim_C7 (sym : PyStr) (ps : List RPos) (wps : List WPos)
    (tr : List PyStr) :
    (((RUN.find_positions sym ps).2.1).all fun x => decide (x.2 < 0)) = true ∧
    (((RUN.find_positions sym ps).2.2).all fun x => decide (x.2 < 0)) = true ∧
    (RUN.find_positions sym ps).1 =
      ((ps.filter fun p =>
        decide (p.contract.symbol = sym ∧ p.contract.secType = stkTy)).map
        fun p => p.position).sum ∧
    (((WW.fetchPos sym wps tr).2.1).all fun x => decide (x.2 < 0)) = true ∧
    (((WW.fetchPos sym wps tr).2.2.1).all fun x => decide (x.2 < 0)) = true ∧
    (WW.fetchPos sym wps tr).1 =
      ((wps.filter fun p => p.contract.isStockOn sym).map fun p => p.position).sum := by
  have hrun := run_foldl_spec sym ps (0, [], [])
  have hww := ww_foldl_spec sym wps (0, [], [])
  refine ⟨?_, ?_, ?_, ?_, ?_, ?_⟩
  · rw [List.all_eq_true]
    intro x hx
    exact decide_eq_true (hrun.2.1 (by simp) x hx)
  · rw [List.all_eq_true]
    intro x hx
    exact decide_eq_true (hrun.2.2 (by simp) x hx)
  · simpa [RUN.find_positions] using hrun.1
  · rw [List.all_eq_true]
    intro x hx
    exact decide_eq_true (hww.2.1 (by simp) x hx)
  · rw [List.all_eq_true]
    intro x hx
    exact decide_eq_true (hww.2.2 (by simp) x hx)
  · simpa [WW.fetchPos] using hww.1

end Wheelbot
